import Mathlib

/-
Verification of the safekubectl command classification core:
the kubectl argument parser (internal/parser/parser.go) and the danger
evaluator (internal/checker, current version with dry-run and
all-namespaces handling) against its natural-language specification.

Go strings are modelled as Lean `String`; Go slices as `List`;
`strings.HasPrefix`/`Contains`/`TrimPrefix`/`SplitN` are modelled by
small executable helpers over the character list.
-/

namespace Safekubectl

/-- Models Go `strings.HasPrefix s pre`. -/
def hasPre (s pre : String) : Bool :=
  pre.toList.isPrefixOf s.toList

/-- Models Go `strings.Contains s c` for a single-character needle. -/
def containsChar (s : String) (c : Char) : Bool :=
  s.toList.contains c

/-- Models Go `strings.TrimPrefix s pre`. -/
def trimPre (s pre : String) : String :=
  if hasPre s pre then String.mk (s.toList.drop pre.toList.length) else s

/-- Models Go `strings.SplitN(s, "/", 2)[0]`: the part before the first slash. -/
def slashHead (s : String) : String :=
  String.mk (s.toList.takeWhile (fun c => c ≠ '/'))

/-- Models Go `strings.SplitN(s, "/", 2)[1]`: everything after the first slash
(only used when `s` contains a slash, in which case SplitN returns 2 parts). -/
def slashTail (s : String) : String :=
  String.mk ((s.toList.dropWhile (fun c => c ≠ '/')).drop 1)

/-- Models Go `strings.Split(flag, "=")[0]`: the part before the first `=`. -/
def eqHead (s : String) : String :=
  String.mk (s.toList.takeWhile (fun c => c ≠ '='))

/-- The parsed kubectl command, from parser.go `KubectlCommand`. -/
structure KubectlCommand where
  Operation : String := ""
  Resource : String := ""
  Name : String := ""
  Namespace : String := ""
  Context : String := ""
  Args : List String := []
  FileInputs : List String := []
  Recursive : Bool := false
  AllNamespaces : Bool := false
  DryRun : Bool := false
deriving Repr, DecidableEq

/-- Node-scoped operations that have no namespace, from parser.go. -/
def nodeScopedOperations : List String :=
  ["cordon", "uncordon", "drain", "taint"]

/-- Operations that use `-f`/`--filename` for file input, from parser.go. -/
def fileInputOperations : List String :=
  ["apply", "delete", "create", "replace", "patch", "annotate", "label", "scale"]

/-- Per-operation subcommand allow-lists, from parser.go `operationsWithSubcommands`. -/
def operationsWithSubcommands (op : String) : List String :=
  if op = "rollout" then ["restart", "status", "undo", "history", "pause", "resume"]
  else if op = "config" then ["view", "use-context", "set-context", "delete-context", "get-contexts", "current-context"]
  else if op = "set" then ["image", "env", "resources", "selector", "serviceaccount", "subject"]
  else []

/-- The fixed value-flags table, from parser.go `needsValue`. -/
def valueFlags : List String :=
  ["-n", "--namespace",
   "-f", "--filename",
   "-k", "--kustomize",
   "-l", "--selector",
   "-o", "--output",
   "--context",
   "--cluster",
   "--user",
   "--kubeconfig",
   "-c", "--container",
   "--field-selector",
   "--sort-by",
   "--template",
   "-p", "--patch",
   "--type",
   "--timeout",
   "--grace-period",
   "--tail",
   "--since",
   "--since-time",
   "--limit-bytes",
   "--address",
   "--image",
   "--replicas",
   "--for"]

/-- Go `needsValue(flag)`: strip the `=` suffix, then membership in the table. -/
def needsValue (flag : String) : Bool :=
  valueFlags.contains (eqHead flag)

/-- Go `findOperation`: scan for the first non-flag token, skipping a flag's
detached value when the flag is in the value table.  The two-token pattern
mirrors the loop's `i+1 < len(args)` test: with a single token left, a
value-taking flag has no value to skip and the scan simply ends. -/
def findOperation : List String → String
  | [] => ""
  | [arg] => if hasPre arg "-" then "" else arg
  | arg :: next :: rest =>
    if hasPre arg "-" then
      if containsChar arg '=' then findOperation (next :: rest)
      else if needsValue arg then findOperation rest
      else findOperation (next :: rest)
    else arg

/-- The embedded-value namespace/context recognition shared by the
leading-flags loop (parser.go lines 115-124): `-n=`, `--namespace=`,
`--context=` set their field, any other `=`-form flag is skipped. -/
def eqFlagUpdate (cmd : KubectlCommand) (arg : String) : KubectlCommand :=
  if hasPre arg "-n=" = true then { cmd with Namespace := trimPre arg "-n=" }
  else if hasPre arg "--namespace=" = true then { cmd with Namespace := trimPre arg "--namespace=" }
  else if hasPre arg "--context=" = true then { cmd with Context := trimPre arg "--context=" }
  else cmd

/-- The detached-value namespace/context recognition of the leading-flags
loop (parser.go lines 125-134): two independent `if`s, as in the Go code. -/
def nsCtxUpdate (cmd : KubectlCommand) (arg next : String) : KubectlCommand :=
  if arg = "--context" then
    { (if arg = "-n" ∨ arg = "--namespace" then { cmd with Namespace := next } else cmd) with
      Context := next }
  else (if arg = "-n" ∨ arg = "--namespace" then { cmd with Namespace := next } else cmd)

/-- The positional resource/name recognition (parser.go lines 250-266):
first positional token fills `Resource` (splitting `kind/name` at the first
slash), the second fills `Name`, later ones are ignored. -/
def posStep (cmd : KubectlCommand) (arg : String) : KubectlCommand :=
  if cmd.Resource = "" then
    if containsChar arg '/' = true then
      { cmd with Resource := slashHead arg, Name := slashTail arg }
    else { cmd with Resource := arg }
  else if cmd.Name = "" then { cmd with Name := arg }
  else cmd

/-- One step of the leading-global-flags loop (parser.go lines 70-138) for the
final token, where every `i+1 < len(args)` test is false. -/
def sgfLast (ufi : Bool) (cmd : KubectlCommand) (arg : String) : KubectlCommand :=
  if ufi = true ∧ hasPre arg "-f=" = true then
    { cmd with FileInputs := cmd.FileInputs ++ [trimPre arg "-f="] }
  else if ufi = true ∧ hasPre arg "--filename=" = true then
    { cmd with FileInputs := cmd.FileInputs ++ [trimPre arg "--filename="] }
  else if arg = "-R" ∨ arg = "--recursive" then { cmd with Recursive := true }
  else if arg = "-A" ∨ arg = "--all-namespaces" then { cmd with AllNamespaces := true }
  else if arg = "--dry-run" ∨ hasPre arg "--dry-run=" = true then { cmd with DryRun := true }
  else if containsChar arg '=' = true then eqFlagUpdate cmd arg
  else cmd

/-- One iteration of the leading-global-flags loop (parser.go lines 70-138)
for a flag token `arg` with a following token `next` (so every
`i+1 < len(args)` test is true).  The Bool is true when `next` was consumed
as the flag's value (`i += 2`). -/
def sgfStep (ufi : Bool) (cmd : KubectlCommand) (arg next : String) :
    KubectlCommand × Bool :=
  if ufi = true ∧ (arg = "-f" ∨ arg = "--filename") then
    ({ cmd with FileInputs := cmd.FileInputs ++ [next] }, true)
  else if ufi = true ∧ hasPre arg "-f=" = true then
    ({ cmd with FileInputs := cmd.FileInputs ++ [trimPre arg "-f="] }, false)
  else if ufi = true ∧ hasPre arg "--filename=" = true then
    ({ cmd with FileInputs := cmd.FileInputs ++ [trimPre arg "--filename="] }, false)
  else if arg = "-R" ∨ arg = "--recursive" then
    ({ cmd with Recursive := true }, false)
  else if arg = "-A" ∨ arg = "--all-namespaces" then
    ({ cmd with AllNamespaces := true }, false)
  else if arg = "--dry-run" ∨ hasPre arg "--dry-run=" = true then
    ({ cmd with DryRun := true }, false)
  else if containsChar arg '=' = true then (eqFlagUpdate cmd arg, false)
  else if needsValue arg = true then (nsCtxUpdate cmd arg next, true)
  else (cmd, false)

/-- The skip-leading-global-flags loop of `Parse` (parser.go lines 70-138):
consumes flag tokens from the front and returns the updated command together
with the remaining tokens (whose head, if any, is the first non-flag token). -/
def sgf (ufi : Bool) : KubectlCommand → List String → KubectlCommand × List String
  | cmd, [] => (cmd, [])
  | cmd, [arg] =>
    if hasPre arg "-" = false then (cmd, [arg])
    else (sgfLast ufi cmd arg, [])
  | cmd, arg :: next :: rest =>
    if hasPre arg "-" = false then (cmd, arg :: next :: rest)
    else
      let s := sgfStep ufi cmd arg next
      if s.2 = true then sgf ufi s.1 rest else sgf ufi s.1 (next :: rest)

/-- One positional/flag step of the main pass (parser.go lines 159-267) for the
final token, where every `i+1 < len(args)` test is false.  A bare `-f`, `-n`,
`--namespace` or `--context` with no following value falls through to the
generic single-token flag skip, exactly as in the Go code. -/
def restLast (ufi : Bool) (cmd : KubectlCommand) (arg : String) : KubectlCommand :=
  if ufi = true ∧ hasPre arg "-f=" = true then
    { cmd with FileInputs := cmd.FileInputs ++ [trimPre arg "-f="] }
  else if ufi = true ∧ hasPre arg "--filename=" = true then
    { cmd with FileInputs := cmd.FileInputs ++ [trimPre arg "--filename="] }
  else if arg = "-R" ∨ arg = "--recursive" then { cmd with Recursive := true }
  else if arg = "-A" ∨ arg = "--all-namespaces" then { cmd with AllNamespaces := true }
  else if arg = "--dry-run" ∨ hasPre arg "--dry-run=" = true then { cmd with DryRun := true }
  else if hasPre arg "-n=" = true then { cmd with Namespace := trimPre arg "-n=" }
  else if hasPre arg "--namespace=" = true then { cmd with Namespace := trimPre arg "--namespace=" }
  else if hasPre arg "--context=" = true then { cmd with Context := trimPre arg "--context=" }
  else if hasPre arg "-" = true then cmd
  else posStep cmd arg

/-- One iteration of the main pass (parser.go lines 159-267) for a token
`arg` (other than `--`) with a following token `next` (so every
`i+1 < len(args)` test is true).  The Bool is true when `next` was consumed
as the flag's value (`i += 2`). -/
def restStep (ufi : Bool) (cmd : KubectlCommand) (arg next : String) :
    KubectlCommand × Bool :=
  if ufi = true ∧ (arg = "-f" ∨ arg = "--filename") then
    ({ cmd with FileInputs := cmd.FileInputs ++ [next] }, true)
  else if ufi = true ∧ hasPre arg "-f=" = true then
    ({ cmd with FileInputs := cmd.FileInputs ++ [trimPre arg "-f="] }, false)
  else if ufi = true ∧ hasPre arg "--filename=" = true then
    ({ cmd with FileInputs := cmd.FileInputs ++ [trimPre arg "--filename="] }, false)
  else if arg = "-R" ∨ arg = "--recursive" then
    ({ cmd with Recursive := true }, false)
  else if arg = "-A" ∨ arg = "--all-namespaces" then
    ({ cmd with AllNamespaces := true }, false)
  else if arg = "--dry-run" ∨ hasPre arg "--dry-run=" = true then
    ({ cmd with DryRun := true }, false)
  else if arg = "-n" ∨ arg = "--namespace" then
    ({ cmd with Namespace := next }, true)
  else if hasPre arg "-n=" = true then
    ({ cmd with Namespace := trimPre arg "-n=" }, false)
  else if hasPre arg "--namespace=" = true then
    ({ cmd with Namespace := trimPre arg "--namespace=" }, false)
  else if arg = "--context" then
    ({ cmd with Context := next }, true)
  else if hasPre arg "--context=" = true then
    ({ cmd with Context := trimPre arg "--context=" }, false)
  else if hasPre arg "-" = true then
    (cmd, if containsChar arg '=' = true then false else needsValue arg)
  else (posStep cmd arg, false)

/-- The main left-to-right pass over the tokens following the operation
(parser.go lines 159-267).  Stops at a standalone `--`; otherwise recognizes
file-input flags (when enabled), boolean modifiers, namespace/context flags in
both detached and `=` forms, skips other flags (consuming a following value
for table-listed flags), and fills resource kind/name from positional tokens. -/
def restLoop (ufi : Bool) : KubectlCommand → List String → KubectlCommand
  | cmd, [] => cmd
  | cmd, [arg] => if arg = "--" then cmd else restLast ufi cmd arg
  | cmd, arg :: next :: rest =>
    if arg = "--" then cmd
    else
      let s := restStep ufi cmd arg next
      if s.2 = true then restLoop ufi s.1 rest else restLoop ufi s.1 (next :: rest)

/-- Whether a token of the main pass, when followed by another token,
consumes that following token as its value: a `-`-leading token without an
embedded `=` whose name is in the value-flags table.  This is exactly the
condition under which `restStep` returns `true` in its second component. -/
def consumesNext (arg : String) : Bool :=
  hasPre arg "-" && !containsChar arg '=' && needsValue arg

/-- The subcommand skip of `Parse` (parser.go lines 146-156): after the
operation, a token matching one of the operation's recognized subcommands is
skipped before resource parsing resumes. -/
def skipSubcommand (subcommands rest : List String) : List String :=
  if subcommands = [] then rest
  else
    match rest with
    | [] => []
    | nxt :: r => if subcommands.contains nxt then r else nxt :: r

/-- Go `parser.Parse`: lookahead for the operation, skip leading global flags,
take the first non-flag token as the operation, skip a recognized subcommand,
then run the main pass. -/
def Parse (args : List String) : KubectlCommand :=
  let cmd0 : KubectlCommand := { Args := args, Namespace := "" }
  if args = [] then cmd0
  else
    let operation := findOperation args
    let ufi := fileInputOperations.contains operation
    let subcommands := operationsWithSubcommands operation
    let step1 := sgf ufi cmd0 args
    match step1.2 with
    | [] => step1.1
    | op :: rest2 =>
      restLoop ufi { step1.1 with Operation := op } (skipSubcommand subcommands rest2)

/-- Go `GetResourceDisplay`. -/
def KubectlCommand.GetResourceDisplay (k : KubectlCommand) : String :=
  if k.Resource = "" then "<unknown>"
  else if k.Name = "" then k.Resource
  else k.Resource ++ "/" ++ k.Name

/-- Go `GetNamespaceDisplay`: the literal `default` when no namespace was given. -/
def KubectlCommand.GetNamespaceDisplay (k : KubectlCommand) : String :=
  if k.Namespace = "" then "default" else k.Namespace

/-- Go `IsNodeScoped`. -/
def KubectlCommand.IsNodeScoped (k : KubectlCommand) : Bool :=
  nodeScopedOperations.contains k.Operation

/-- Confirmation mode `confirm`, from config.go. -/
def modeConfirm : String := "confirm"

/-- Confirmation mode `warn-only`, from config.go. -/
def modeWarnOnly : String := "warn-only"

/-- The policy, from config.go `Config` (the audit sub-configuration is pure
I/O and plays no role in the evaluator).  The Go `Mode` type is a string. -/
structure Config where
  Mode : String
  DangerousOperations : List String
  ProtectedNamespaces : List String
  ProtectedClusters : List String
deriving Repr, DecidableEq

/-- Go `Config.IsDangerousOperation`. -/
def Config.IsDangerousOperation (c : Config) (operation : String) : Bool :=
  c.DangerousOperations.contains operation

/-- Go `Config.IsProtectedNamespace`. -/
def Config.IsProtectedNamespace (c : Config) (ns : String) : Bool :=
  c.ProtectedNamespaces.contains ns

/-- Go `Config.IsProtectedCluster`. -/
def Config.IsProtectedCluster (c : Config) (cluster : String) : Bool :=
  c.ProtectedClusters.contains cluster

/-- Go `Config.RequiresConfirmation`: confirm mode, or a protected resource. -/
def Config.RequiresConfirmation (c : Config) (ns cluster : String) : Bool :=
  if c.Mode = modeConfirm then true
  else c.IsProtectedNamespace ns || c.IsProtectedCluster cluster

/-- The non-audit part of config.go `DefaultConfig`. -/
def defaultConfig : Config :=
  { Mode := modeConfirm,
    DangerousOperations :=
      ["delete", "apply", "patch", "edit", "update",
       "rollout", "drain", "exec", "cordon", "taint"],
    ProtectedNamespaces := ["kube-system"],
    ProtectedClusters := [] }

/-- A manifest-derived resource, from internal/manifest. -/
structure Resource where
  Kind : String
  Name : String
  Namespace : String
  Source : String
deriving Repr, DecidableEq

/-- The single-command verdict, from the checker `CheckResult` (current
version, with the all-namespaces and dry-run fields). -/
structure CheckResult where
  IsDangerous : Bool
  RequiresConfirmation : Bool
  IsNodeScoped : Bool
  IsAllNamespaces : Bool
  IsDryRun : Bool
  Operation : String
  Resource : String
  Namespace : String
  Cluster : String
  Reasons : List String
deriving Repr, DecidableEq

/-- The checker `Checker.Check` (current version): dry-run short-circuit,
dangerous-operation gate, all-namespaces forcing, node-scope-suppressed
namespace reason, cluster reason, then the mode-based confirmation rule.
Note the final confirmation rule uses the raw namespace display, not the
node-scope-suppressed one. -/
def Check (cfg : Config) (cmd : KubectlCommand) (cluster : String) : CheckResult :=
  let ns := cmd.GetNamespaceDisplay
  let isNodeScoped := cmd.IsNodeScoped
  let result0 : CheckResult :=
    { IsDangerous := false, RequiresConfirmation := false,
      IsNodeScoped := isNodeScoped, IsAllNamespaces := cmd.AllNamespaces,
      IsDryRun := cmd.DryRun, Operation := cmd.Operation,
      Resource := cmd.GetResourceDisplay, Namespace := ns,
      Cluster := cluster, Reasons := [] }
  if cmd.DryRun = true then result0
  else if cfg.IsDangerousOperation cmd.Operation = false then result0
  else
    let r1 :=
      { result0 with
        IsDangerous := true,
        Reasons := result0.Reasons ++ ["dangerous operation: " ++ cmd.Operation] }
    let r2 :=
      if cmd.AllNamespaces = true then
        { r1 with
          Reasons := r1.Reasons ++ ["AFFECTS ALL NAMESPACES (-A/--all-namespaces)"],
          RequiresConfirmation := true }
      else r1
    let r3 :=
      if cmd.AllNamespaces = false ∧ isNodeScoped = false ∧ cfg.IsProtectedNamespace ns = true then
        { r2 with Reasons := r2.Reasons ++ ["protected namespace: " ++ ns] }
      else r2
    let r4 :=
      if cfg.IsProtectedCluster cluster = true then
        { r3 with Reasons := r3.Reasons ++ ["protected cluster: " ++ cluster] }
      else r3
    if r4.RequiresConfirmation = false then
      { r4 with RequiresConfirmation := cfg.RequiresConfirmation ns cluster }
    else r4

/-- The multi-resource verdict, from the checker `ResourceCheckResult`. -/
structure ResourceCheckResult where
  IsDangerous : Bool
  RequiresConfirmation : Bool
  Operation : String
  Cluster : String
  Resources : List Resource
  Reasons : List String
deriving Repr, DecidableEq

/-- The per-resource namespace fallback in `CheckResources`: the literal
`default` when the resource's namespace field is empty. -/
def resolvedNamespace (r : Resource) : String :=
  if r.Namespace = "" then "default" else r.Namespace

/-- One iteration of the resource loop in `CheckResources` that populates the
`protectedNamespaces` map: insert the resolved namespace when it is protected
(insertion into a set: a no-op when already present). -/
def pnsStep (cfg : Config) (acc : List String) (r : Resource) : List String :=
  let ns := resolvedNamespace r
  if cfg.IsProtectedNamespace ns = true ∧ ns ∉ acc then acc ++ [ns]
  else acc

/-- The key set of the Go map `protectedNamespaces` built by `CheckResources`:
the distinct protected namespaces touched by the resources (after the
empty-to-`default` fallback), listed here in first-touch order. -/
def protectedNamespaceSet (cfg : Config) (resources : List Resource) : List String :=
  resources.foldl (pnsStep cfg) []

/-- Admissible iteration orders for the Go `for ns := range protectedNamespaces`
loop in `CheckResources`: Go specifies no iteration order for maps (and the
runtime deliberately varies it), so any enumeration of the key set — any
permutation of `protectedNamespaceSet` — is a possible execution. -/
abbrev mapOrderAdmissible (cfg : Config) (resources : List Resource) (order : List String) : Prop :=
  order.Perm (protectedNamespaceSet cfg resources)

/-- The checker `Checker.CheckResources`, parameterized by the map iteration
order `order` chosen by the Go runtime for the protected-namespace reason
loop (see `mapOrderAdmissible`).  Everything else is order-independent. -/
def CheckResources (cfg : Config) (operation : String) (resources : List Resource)
    (cluster : String) (order : List String) : ResourceCheckResult :=
  let result0 : ResourceCheckResult :=
    { IsDangerous := false, RequiresConfirmation := false,
      Operation := operation, Cluster := cluster,
      Resources := resources, Reasons := [] }
  if cfg.IsDangerousOperation operation = false then result0
  else
    let touched := protectedNamespaceSet cfg resources
    let r1 :=
      { result0 with
        IsDangerous := true,
        Reasons := ["dangerous operation: " ++ operation] }
    let r2 := { r1 with Reasons := r1.Reasons ++ order.map (fun ns => "protected namespace: " ++ ns) }
    let r3 :=
      if cfg.IsProtectedCluster cluster = true then
        { r2 with Reasons := r2.Reasons ++ ["protected cluster: " ++ cluster] }
      else r2
    { r3 with RequiresConfirmation :=
        if cfg.Mode = modeConfirm then true
        else touched.isEmpty = false || cfg.IsProtectedCluster cluster }

lemma isPre_split (q p x : List Char) :
    p.isPrefixOf (q ++ x) =
      ((p.take q.length).isPrefixOf q && (p.drop q.length).isPrefixOf x) := by
  induction q generalizing p with
  | nil => simp
  | cons b qs ih =>
    cases p with
    | nil => simp
    | cons a ps => simp [List.isPrefixOf_cons₂, ih, Bool.and_assoc]

lemma hasPre_append (pre s t : String) :
    hasPre (s ++ t) pre =
      ((pre.toList.take s.toList.length).isPrefixOf s.toList &&
       (pre.toList.drop s.toList.length).isPrefixOf t.toList) := by
  rw [hasPre, show (s ++ t).toList = s.toList ++ t.toList from rfl, isPre_split]

lemma pnPre_dangerous (op : String) :
    hasPre ("dangerous operation: " ++ op) "protected namespace: " = false := by
  rw [hasPre_append]
  rw [show (("protected namespace: " : String).toList.take
    ("dangerous operation: " : String).toList.length).isPrefixOf
    ("dangerous operation: " : String).toList = false from by decide]
  rw [Bool.false_and]

lemma pnPre_cluster (c : String) :
    hasPre ("protected cluster: " ++ c) "protected namespace: " = false := by
  rw [hasPre_append]
  rw [show (("protected namespace: " : String).toList.take
    ("protected cluster: " : String).toList.length).isPrefixOf
    ("protected cluster: " : String).toList = false from by decide]
  rw [Bool.false_and]

lemma pnPre_pn (ns : String) :
    hasPre ("protected namespace: " ++ ns) "protected namespace: " = true := by
  rw [hasPre_append]
  rw [show (("protected namespace: " : String).toList.take
    ("protected namespace: " : String).toList.length).isPrefixOf
    ("protected namespace: " : String).toList = true from by decide]
  rw [show ("protected namespace: " : String).toList.drop
    ("protected namespace: " : String).toList.length = [] from by decide]
  simp

/-- Claim C1: a parsed command with dryRun set makes the single-command
evaluator return the all-safe verdict — not dangerous, no confirmation,
no reasons — regardless of the operation, the policy, the cluster, and the
all-namespaces flag. -/
theorem check_dry_run_all_safe (cfg : Config) (cmd : KubectlCommand) (cluster : String)
    (h : cmd.DryRun = true) :
    (Check cfg cmd cluster).IsDangerous = false ∧
    (Check cfg cmd cluster).RequiresConfirmation = false ∧
    (Check cfg cmd cluster).Reasons = [] := by
  simp [Check, h]

/-- Witness for C1 at the spec's own example `delete pod nginx --dry-run=client`
under the default policy, where `delete` is dangerous. -/
theorem check_dry_run_all_safe_witness :
    (Parse ["delete", "pod", "nginx", "--dry-run=client"]).DryRun = true ∧
    defaultConfig.IsDangerousOperation
      (Parse ["delete", "pod", "nginx", "--dry-run=client"]).Operation = true ∧
    (Check defaultConfig (Parse ["delete", "pod", "nginx", "--dry-run=client"])
      "prod-cluster").IsDangerous = false ∧
    (Check defaultConfig (Parse ["delete", "pod", "nginx", "--dry-run=client"])
      "prod-cluster").RequiresConfirmation = false ∧
    (Check defaultConfig (Parse ["delete", "pod", "nginx", "--dry-run=client"])
      "prod-cluster").Reasons = [] := by
  refine ⟨by decide, by decide, ?_⟩
  have h := check_dry_run_all_safe defaultConfig
    (Parse ["delete", "pod", "nginx", "--dry-run=client"]) "prod-cluster" (by decide)
  exact ⟨h.1, h.2.1, h.2.2⟩

/-- Claim C3: for a dangerous, non-dry-run command with the all-namespaces
flag, the single-command evaluator forces requiresConfirmation and appends
the ALL-NAMESPACES marker reason, for every policy mode and protection
configuration. -/
theorem check_all_namespaces_forces_confirmation (cfg : Config) (cmd : KubectlCommand)
    (cluster : String) (hdry : cmd.DryRun = false)
    (hop : cfg.IsDangerousOperation cmd.Operation = true)
    (hall : cmd.AllNamespaces = true) :
    (Check cfg cmd cluster).RequiresConfirmation = true ∧
    "AFFECTS ALL NAMESPACES (-A/--all-namespaces)" ∈ (Check cfg cmd cluster).Reasons := by
  by_cases hc : cfg.IsProtectedCluster cluster = true <;>
    simp [Check, hdry, hop, hall, hc]

/-- Witness for C3: `delete pods -A` under warn-only mode with nothing
protected still requires confirmation. -/
theorem check_all_namespaces_forces_confirmation_witness :
    (Parse ["delete", "pods", "-A"]).DryRun = false ∧
    ({ Mode := modeWarnOnly, DangerousOperations := ["delete"],
       ProtectedNamespaces := [], ProtectedClusters := [] } : Config).IsDangerousOperation
      (Parse ["delete", "pods", "-A"]).Operation = true ∧
    (Parse ["delete", "pods", "-A"]).AllNamespaces = true ∧
    (Check { Mode := modeWarnOnly, DangerousOperations := ["delete"],
             ProtectedNamespaces := [], ProtectedClusters := [] }
      (Parse ["delete", "pods", "-A"]) "dev-cluster").RequiresConfirmation = true ∧
    "AFFECTS ALL NAMESPACES (-A/--all-namespaces)" ∈
      (Check { Mode := modeWarnOnly, DangerousOperations := ["delete"],
               ProtectedNamespaces := [], ProtectedClusters := [] }
        (Parse ["delete", "pods", "-A"]) "dev-cluster").Reasons := by
  refine ⟨by decide, by decide, by decide, ?_⟩
  exact check_all_namespaces_forces_confirmation _ _ _ (by decide) (by decide) (by decide)

/-- Counterexample to claim C4 as stated: for the dangerous node-scoped
operation `cordon` with a protected namespace flag, under warn-only mode and
an unprotected cluster, the evaluator returns requiresConfirmation = true —
the claim predicts false, because it assumes the confirmation rule uses the
node-scope-suppressed namespace.  The code passes the raw namespace display
to the confirmation rule (only the reason line is suppressed). -/
theorem check_node_scoped_confirmation_cex :
    (Parse ["cordon", "node-1", "-n", "kube-system"]).IsNodeScoped = true ∧
    (Parse ["cordon", "node-1", "-n", "kube-system"]).DryRun = false ∧
    (Parse ["cordon", "node-1", "-n", "kube-system"]).AllNamespaces = false ∧
    ({ Mode := modeWarnOnly, DangerousOperations := ["cordon"],
       ProtectedNamespaces := ["kube-system"], ProtectedClusters := [] } : Config).IsDangerousOperation
      (Parse ["cordon", "node-1", "-n", "kube-system"]).Operation = true ∧
    ({ Mode := modeWarnOnly, DangerousOperations := ["cordon"],
       ProtectedNamespaces := ["kube-system"], ProtectedClusters := [] } : Config).IsProtectedCluster
      "dev-cluster" = false ∧
    (Check { Mode := modeWarnOnly, DangerousOperations := ["cordon"],
             ProtectedNamespaces := ["kube-system"], ProtectedClusters := [] }
      (Parse ["cordon", "node-1", "-n", "kube-system"]) "dev-cluster").RequiresConfirmation
      = true := by
  decide

/-- Claim C4 (amended): when confirmation was not forced by the
all-namespaces rule, requiresConfirmation is set from the policy rule applied
to the raw namespace display — mode is always-confirm, OR the display
namespace is protected (with no node-scoped suppression), OR the cluster is
protected.  Node-scoped suppression affects only the reasons list: a
dangerous node-scoped command never carries a protected-namespace reason,
yet still requires confirmation when its namespace flag names a protected
namespace. -/
theorem check_confirmation_rule (cfg : Config) (cmd : KubectlCommand) (cluster : String)
    (hdry : cmd.DryRun = false)
    (hop : cfg.IsDangerousOperation cmd.Operation = true)
    (hall : cmd.AllNamespaces = false) :
    (Check cfg cmd cluster).RequiresConfirmation
      = cfg.RequiresConfirmation cmd.GetNamespaceDisplay cluster ∧
    (cmd.IsNodeScoped = true →
      ∀ s ∈ (Check cfg cmd cluster).Reasons, hasPre s "protected namespace: " = false) := by
  constructor
  · by_cases hns : cfg.IsProtectedNamespace cmd.GetNamespaceDisplay = true <;>
      by_cases hc : cfg.IsProtectedCluster cluster = true <;>
      by_cases hnode : cmd.IsNodeScoped = true <;>
      by_cases hrc : cfg.RequiresConfirmation cmd.GetNamespaceDisplay cluster = true <;>
      simp_all [Check]
  · intro hnode s hs
    by_cases hc : cfg.IsProtectedCluster cluster = true
    · simp [Check, hdry, hop, hall, hnode, hc] at hs
      rcases hs with h | h <;> subst h
      · exact pnPre_dangerous _
      · exact pnPre_cluster _
    · simp [Check, hdry, hop, hall, hnode, hc] at hs
      subst hs
      exact pnPre_dangerous _

/-- Witness for the amended C4: `cordon node-1 -n kube-system` in warn-only
mode with `kube-system` protected requires confirmation yet shows no
protected-namespace reason. -/
theorem check_confirmation_rule_witness :
    (Parse ["cordon", "node-1", "-n", "kube-system"]).DryRun = false ∧
    ({ Mode := modeWarnOnly, DangerousOperations := ["cordon"],
       ProtectedNamespaces := ["kube-system"], ProtectedClusters := [] } : Config).IsDangerousOperation
      (Parse ["cordon", "node-1", "-n", "kube-system"]).Operation = true ∧
    (Parse ["cordon", "node-1", "-n", "kube-system"]).AllNamespaces = false ∧
    ((Check { Mode := modeWarnOnly, DangerousOperations := ["cordon"],
              ProtectedNamespaces := ["kube-system"], ProtectedClusters := [] }
        (Parse ["cordon", "node-1", "-n", "kube-system"]) "dev-cluster").RequiresConfirmation
      = ({ Mode := modeWarnOnly, DangerousOperations := ["cordon"],
           ProtectedNamespaces := ["kube-system"], ProtectedClusters := [] } : Config).RequiresConfirmation
          (Parse ["cordon", "node-1", "-n", "kube-system"]).GetNamespaceDisplay "dev-cluster" ∧
     ((Parse ["cordon", "node-1", "-n", "kube-system"]).IsNodeScoped = true →
       ∀ s ∈ (Check { Mode := modeWarnOnly, DangerousOperations := ["cordon"],
                      ProtectedNamespaces := ["kube-system"], ProtectedClusters := [] }
          (Parse ["cordon", "node-1", "-n", "kube-system"]) "dev-cluster").Reasons,
         hasPre s "protected namespace: " = false)) := by
  refine ⟨by decide, by decide, by decide, ?_⟩
  exact check_confirmation_rule _ _ _ (by decide) (by decide) (by decide)

/-- Claim C10: the single-command evaluator tests protection against the
display namespace — the literal `default` when no namespace flag was given.
For a dangerous, non-dry-run, non-node-scoped, non-all-namespaces command
with empty namespace: if `default` is protected the verdict carries the
`protected namespace: default` reason and requires confirmation even in
warn-only mode; if `default` is not protected, no protected-namespace reason
appears at all, whatever other namespaces the policy protects. -/
theorem check_default_namespace (cfg : Config) (cmd : KubectlCommand) (cluster : String)
    (hdry : cmd.DryRun = false) (hns : cmd.Namespace = "")
    (hop : cfg.IsDangerousOperation cmd.Operation = true)
    (hnode : cmd.IsNodeScoped = false) (hall : cmd.AllNamespaces = false) :
    (cfg.IsProtectedNamespace "default" = true →
      "protected namespace: default" ∈ (Check cfg cmd cluster).Reasons ∧
      (Check cfg cmd cluster).RequiresConfirmation = true) ∧
    (cfg.IsProtectedNamespace "default" = false →
      ∀ s ∈ (Check cfg cmd cluster).Reasons, hasPre s "protected namespace: " = false) := by
  have hdisp : cmd.GetNamespaceDisplay = "default" := by
    simp [KubectlCommand.GetNamespaceDisplay, hns]
  constructor
  · intro hprot
    by_cases hc : cfg.IsProtectedCluster cluster = true <;>
      simp_all [Check, Config.RequiresConfirmation]
  · intro hp s hs
    by_cases hc : cfg.IsProtectedCluster cluster = true
    · simp [Check, hdry, hop, hall, hnode, hc, hdisp, hp] at hs
      rcases hs with h | h <;> subst h
      · exact pnPre_dangerous _
      · exact pnPre_cluster _
    · simp [Check, hdry, hop, hall, hnode, hc, hdisp, hp] at hs
      subst hs
      exact pnPre_dangerous _

/-- Witness for C10: `delete pod nginx` with no namespace flag, `default`
protected, warn-only mode. -/
theorem check_default_namespace_witness :
    (Parse ["delete", "pod", "nginx"]).Namespace = "" ∧
    ({ Mode := modeWarnOnly, DangerousOperations := ["delete"],
       ProtectedNamespaces := ["default"], ProtectedClusters := [] } : Config).IsProtectedNamespace
      "default" = true ∧
    ("protected namespace: default" ∈
      (Check { Mode := modeWarnOnly, DangerousOperations := ["delete"],
               ProtectedNamespaces := ["default"], ProtectedClusters := [] }
        (Parse ["delete", "pod", "nginx"]) "dev-cluster").Reasons ∧
     (Check { Mode := modeWarnOnly, DangerousOperations := ["delete"],
              ProtectedNamespaces := ["default"], ProtectedClusters := [] }
        (Parse ["delete", "pod", "nginx"]) "dev-cluster").RequiresConfirmation = true) := by
  refine ⟨by decide, by decide, ?_⟩
  exact (check_default_namespace _ _ _ (by decide) (by decide) (by decide) (by decide)
    (by decide)).1 (by decide)

lemma pns_foldl_mem (cfg : Config) (res : List Resource) :
    ∀ (acc : List String) (x : String),
      x ∈ res.foldl (pnsStep cfg) acc ↔
        x ∈ acc ∨ (cfg.IsProtectedNamespace x = true ∧ ∃ r, r ∈ res ∧ resolvedNamespace r = x) := by
  induction res with
  | nil => simp
  | cons r rs ih =>
    intro acc x
    rw [List.foldl_cons, ih]
    unfold pnsStep
    by_cases h1 : cfg.IsProtectedNamespace (resolvedNamespace r) = true
      ∧ resolvedNamespace r ∉ acc
    · rw [if_pos h1]
      simp only [List.mem_append, List.mem_cons, List.not_mem_nil, or_false]
      constructor
      · rintro ((hx | hx) | ⟨hpr, rr, hrr, hres⟩)
        · exact Or.inl hx
        · subst hx
          exact Or.inr ⟨h1.1, r, Or.inl rfl, rfl⟩
        · exact Or.inr ⟨hpr, rr, Or.inr hrr, hres⟩
      · rintro (hx | ⟨hpr, rr, (hrr | hrr), hres⟩)
        · exact Or.inl (Or.inl hx)
        · subst hrr
          exact Or.inl (Or.inr hres.symm)
        · exact Or.inr ⟨hpr, rr, hrr, hres⟩
    · rw [if_neg h1]
      simp only [List.mem_cons]
      constructor
      · rintro (hx | ⟨hpr, rr, hrr, hres⟩)
        · exact Or.inl hx
        · exact Or.inr ⟨hpr, rr, Or.inr hrr, hres⟩
      · rintro (hx | ⟨hpr, rr, (hrr | hrr), hres⟩)
        · exact Or.inl hx
        · subst hrr
          subst hres
          rcases Decidable.not_and_iff_or_not.mp h1 with hb | hb
          · exact absurd hpr hb
          · exact Or.inl (Decidable.not_not.mp hb)
        · exact Or.inr ⟨hpr, rr, hrr, hres⟩

/-- Membership in the protected-namespace key set is exactly: the namespace is
protected and some resource resolves to it. -/
lemma mem_protectedNamespaceSet (cfg : Config) (res : List Resource) (x : String) :
    x ∈ protectedNamespaceSet cfg res ↔
      cfg.IsProtectedNamespace x = true ∧ ∃ r, r ∈ res ∧ resolvedNamespace r = x := by
  rw [protectedNamespaceSet, pns_foldl_mem]
  simp

lemma pns_foldl_nodup (cfg : Config) (res : List Resource) :
    ∀ acc : List String, acc.Nodup → (res.foldl (pnsStep cfg) acc).Nodup := by
  induction res with
  | nil => intro acc h; simpa using h
  | cons r rs ih =>
    intro acc h
    rw [List.foldl_cons]
    apply ih
    unfold pnsStep
    by_cases h1 : cfg.IsProtectedNamespace (resolvedNamespace r) = true
      ∧ resolvedNamespace r ∉ acc
    · rw [if_pos h1]
      simp [List.nodup_append, h, h1.2]
    · rw [if_neg h1]
      exact h

/-- The protected-namespace key set never repeats a namespace. -/
lemma protectedNamespaceSet_nodup (cfg : Config) (res : List Resource) :
    (protectedNamespaceSet cfg res).Nodup :=
  pns_foldl_nodup cfg res [] List.nodup_nil

/-- Claim C8: for a dangerous operation, the multi-resource evaluator
substitutes `default` for empty resource namespaces and emits exactly one
protected-namespace reason per distinct protected namespace touched: the
count of protected-namespace reasons equals the size of the (duplicate-free)
touched set, whose members are exactly the protected namespaces some resource
resolves to. -/
theorem checkResources_distinct_protected_reasons (cfg : Config) (op : String)
    (res : List Resource) (cluster : String) (order : List String)
    (hord : mapOrderAdmissible cfg res order)
    (hop : cfg.IsDangerousOperation op = true) :
    ((CheckResources cfg op res cluster order).Reasons.countP
        (fun s => hasPre s "protected namespace: "))
      = (protectedNamespaceSet cfg res).length ∧
    (protectedNamespaceSet cfg res).Nodup ∧
    (∀ ns, ns ∈ protectedNamespaceSet cfg res ↔
      cfg.IsProtectedNamespace ns = true ∧ ∃ r, r ∈ res ∧ resolvedNamespace r = ns) := by
  refine ⟨?_, protectedNamespaceSet_nodup cfg res, fun ns => mem_protectedNamespaceSet cfg res ns⟩
  have hlen : order.length = (protectedNamespaceSet cfg res).length :=
    List.Perm.length_eq hord
  have hcnt : (order.map (fun ns => "protected namespace: " ++ ns)).countP
      (fun s => hasPre s "protected namespace: ") = order.length := by
    rw [List.countP_eq_length.mpr, List.length_map]
    intro s hs
    rcases List.mem_map.mp hs with ⟨ns, _, rfl⟩
    exact pnPre_pn ns
  have hreasons : (CheckResources cfg op res cluster order).Reasons
      = ["dangerous operation: " ++ op]
        ++ order.map (fun ns => "protected namespace: " ++ ns)
        ++ (if cfg.IsProtectedCluster cluster = true
            then ["protected cluster: " ++ cluster] else []) := by
    by_cases hc : cfg.IsProtectedCluster cluster = true <;> simp [CheckResources, hop, hc]
  rw [hreasons]
  by_cases hc : cfg.IsProtectedCluster cluster = true <;>
    simp [hc, List.countP_append, List.countP_cons, pnPre_dangerous, pnPre_cluster, hcnt, hlen]

/-- Witness for C8 at the spec's example: resources in namespaces a, a, b with
both a and b protected yield exactly 2 protected-namespace reasons. -/
theorem checkResources_distinct_protected_reasons_witness :
    mapOrderAdmissible
      { Mode := modeConfirm, DangerousOperations := ["apply"],
        ProtectedNamespaces := ["a", "b"], ProtectedClusters := [] }
      [{ Kind := "D", Name := "x", Namespace := "a", Source := "s" },
       { Kind := "D", Name := "y", Namespace := "a", Source := "s" },
       { Kind := "D", Name := "z", Namespace := "b", Source := "s" }]
      ["a", "b"] ∧
    (List.count "a"
        [resolvedNamespace { Kind := "D", Name := "x", Namespace := "a", Source := "s" },
         resolvedNamespace { Kind := "D", Name := "y", Namespace := "a", Source := "s" },
         resolvedNamespace { Kind := "D", Name := "z", Namespace := "b", Source := "s" }]) = 2 ∧
    ((CheckResources
        { Mode := modeConfirm, DangerousOperations := ["apply"],
          ProtectedNamespaces := ["a", "b"], ProtectedClusters := [] }
        "apply"
        [{ Kind := "D", Name := "x", Namespace := "a", Source := "s" },
         { Kind := "D", Name := "y", Namespace := "a", Source := "s" },
         { Kind := "D", Name := "z", Namespace := "b", Source := "s" }]
        "dev-cluster" ["a", "b"]).Reasons.countP
        (fun s => hasPre s "protected namespace: "))
      = 2 := by
  refine ⟨by decide, by decide, ?_⟩
  have h := (checkResources_distinct_protected_reasons
    { Mode := modeConfirm, DangerousOperations := ["apply"],
      ProtectedNamespaces := ["a", "b"], ProtectedClusters := [] }
    "apply"
    [{ Kind := "D", Name := "x", Namespace := "a", Source := "s" },
     { Kind := "D", Name := "y", Namespace := "a", Source := "s" },
     { Kind := "D", Name := "z", Namespace := "b", Source := "s" }]
    "dev-cluster" ["a", "b"] (by decide) (by decide)).1
  rw [h]
  decide

/-- Counterexample to claim C9 as stated: the Go `for ns := range` loop in
`CheckResources` iterates a map, whose order Go does not specify (and the
runtime varies); with two distinct protected namespaces touched, two
admissible iteration orders yield verdicts whose reasons differ in order, so
two evaluations on identical inputs need not produce identical reason
sequences. -/
theorem checkResources_order_nondeterminism_cex :
    mapOrderAdmissible
      { Mode := modeWarnOnly, DangerousOperations := ["apply"],
        ProtectedNamespaces := ["a", "b"], ProtectedClusters := [] }
      [{ Kind := "D", Name := "x", Namespace := "a", Source := "s" },
       { Kind := "D", Name := "z", Namespace := "b", Source := "s" }]
      ["a", "b"] ∧
    mapOrderAdmissible
      { Mode := modeWarnOnly, DangerousOperations := ["apply"],
        ProtectedNamespaces := ["a", "b"], ProtectedClusters := [] }
      [{ Kind := "D", Name := "x", Namespace := "a", Source := "s" },
       { Kind := "D", Name := "z", Namespace := "b", Source := "s" }]
      ["b", "a"] ∧
    CheckResources
      { Mode := modeWarnOnly, DangerousOperations := ["apply"],
        ProtectedNamespaces := ["a", "b"], ProtectedClusters := [] }
      "apply"
      [{ Kind := "D", Name := "x", Namespace := "a", Source := "s" },
       { Kind := "D", Name := "z", Namespace := "b", Source := "s" }]
      "dev-cluster" ["a", "b"]
    ≠ CheckResources
      { Mode := modeWarnOnly, DangerousOperations := ["apply"],
        ProtectedNamespaces := ["a", "b"], ProtectedClusters := [] }
      "apply"
      [{ Kind := "D", Name := "x", Namespace := "a", Source := "s" },
       { Kind := "D", Name := "z", Namespace := "b", Source := "s" }]
      "dev-cluster" ["b", "a"] := by
  refine ⟨by decide, by decide, by decide⟩

/-- Claim C9 (amended): the single-command evaluator is a pure function of
its inputs; the multi-resource evaluator is deterministic in every verdict
field and in the multiset of reasons, but the relative order of the
protected-namespace reasons follows the unspecified map iteration order: two
evaluations on identical inputs agree on all fields and produce reason
sequences that are permutations of each other (and identical whenever at most
one distinct protected namespace is touched). -/
theorem checkResources_deterministic_up_to_order (cfg : Config) (op : String)
    (res : List Resource) (cluster : String) (o₁ o₂ : List String)
    (h₁ : mapOrderAdmissible cfg res o₁) (h₂ : mapOrderAdmissible cfg res o₂) :
    (CheckResources cfg op res cluster o₁).IsDangerous
      = (CheckResources cfg op res cluster o₂).IsDangerous ∧
    (CheckResources cfg op res cluster o₁).RequiresConfirmation
      = (CheckResources cfg op res cluster o₂).RequiresConfirmation ∧
    (CheckResources cfg op res cluster o₁).Operation
      = (CheckResources cfg op res cluster o₂).Operation ∧
    (CheckResources cfg op res cluster o₁).Cluster
      = (CheckResources cfg op res cluster o₂).Cluster ∧
    (CheckResources cfg op res cluster o₁).Resources
      = (CheckResources cfg op res cluster o₂).Resources ∧
    (CheckResources cfg op res cluster o₁).Reasons.Perm
      (CheckResources cfg op res cluster o₂).Reasons := by
  have hp : o₁.Perm o₂ := h₁.trans h₂.symm
  by_cases hop : cfg.IsDangerousOperation op = false
  · simp [CheckResources, hop]
  · by_cases hc : cfg.IsProtectedCluster cluster = true <;>
      simp [CheckResources, hop, hc] <;>
      first
        | exact (hp.map _).append (List.Perm.refl _)
        | exact hp.map _

/-- Witness for the amended C9 at two concrete admissible orders. -/
theorem checkResources_deterministic_up_to_order_witness :
    (CheckResources
      { Mode := modeWarnOnly, DangerousOperations := ["apply"],
        ProtectedNamespaces := ["a", "b"], ProtectedClusters := [] }
      "apply"
      [{ Kind := "D", Name := "x", Namespace := "a", Source := "s" },
       { Kind := "D", Name := "z", Namespace := "b", Source := "s" }]
      "dev-cluster" ["a", "b"]).Reasons.Perm
      (CheckResources
        { Mode := modeWarnOnly, DangerousOperations := ["apply"],
          ProtectedNamespaces := ["a", "b"], ProtectedClusters := [] }
        "apply"
        [{ Kind := "D", Name := "x", Namespace := "a", Source := "s" },
         { Kind := "D", Name := "z", Namespace := "b", Source := "s" }]
        "dev-cluster" ["b", "a"]).Reasons := by
  exact (checkResources_deterministic_up_to_order _ _ _ _ _ _
    (by decide) (by decide)).2.2.2.2.2

/-- Claim C2 is contradicted by the code: `Runner.runWithFileInputs` routes
every command with file inputs to `CheckResources` without consulting
`dryRun`, and `CheckResources` has no dry-run branch.  At the repository's
own regression-test input — `apply -f deploy.yaml --dry-run=client` against
a manifest in the protected `kube-system` namespace under the default policy
(test `TestRunDryRunFileInputSkipsWarning`, which demands no warning) — the
parse sets dryRun and routes through the file path, yet the verdict is
dangerous and requires confirmation. -/
theorem checkResources_ignores_dry_run_cex :
    (Parse ["apply", "-f", "deploy.yaml", "--dry-run=client"]).DryRun = true ∧
    (Parse ["apply", "-f", "deploy.yaml", "--dry-run=client"]).FileInputs = ["deploy.yaml"] ∧
    (Parse ["apply", "-f", "deploy.yaml", "--dry-run=client"]).Operation = "apply" ∧
    mapOrderAdmissible defaultConfig
      [{ Kind := "Deployment", Name := "nginx", Namespace := "kube-system",
         Source := "deploy.yaml" }] ["kube-system"] ∧
    (CheckResources defaultConfig "apply"
      [{ Kind := "Deployment", Name := "nginx", Namespace := "kube-system",
         Source := "deploy.yaml" }]
      "test-cluster" ["kube-system"]).IsDangerous = true ∧
    (CheckResources defaultConfig "apply"
      [{ Kind := "Deployment", Name := "nginx", Namespace := "kube-system",
         Source := "deploy.yaml" }]
      "test-cluster" ["kube-system"]).RequiresConfirmation = true := by
  exact ⟨by decide, by decide, by decide, by decide, by decide, by decide⟩

lemma slashHead_ne_empty (s : String) (h1 : hasPre s "/" = false)
    (h2 : containsChar s '/' = true) : slashHead s ≠ "" := by
  obtain ⟨cs⟩ := s
  cases cs with
  | nil => simp [containsChar] at h2
  | cons c cs =>
    have hc : c ≠ '/' := by
      intro he
      subst he
      simp [hasPre, show ("/" : String).toList = ['/'] from rfl, List.isPrefixOf] at h1
    rw [slashHead, show (String.mk (c :: cs)).toList = c :: cs from rfl,
      List.takeWhile_cons, if_pos (by simpa using hc)]
    intro h
    have := congrArg String.data h
    simp at this

lemma contains_of_hasPre (s p : String) (c : Char) (h : hasPre s p = true)
    (hc : c ∈ p.toList) : containsChar s c = true := by
  rw [hasPre] at h
  have hpre : p.toList <+: s.toList := List.isPrefixOf_iff_prefix.mp h
  exact List.elem_iff.mpr (hpre.subset hc)

lemma posStep_keeps (cmd : KubectlCommand) (arg : String) :
    (posStep cmd arg).Operation = cmd.Operation ∧
    (posStep cmd arg).Args = cmd.Args ∧
    (posStep cmd arg).Namespace = cmd.Namespace ∧
    (posStep cmd arg).Context = cmd.Context ∧
    (posStep cmd arg).FileInputs = cmd.FileInputs ∧
    (posStep cmd arg).Recursive = cmd.Recursive ∧
    (posStep cmd arg).AllNamespaces = cmd.AllNamespaces ∧
    (posStep cmd arg).DryRun = cmd.DryRun := by
  unfold posStep
  split_ifs <;> exact ⟨rfl, rfl, rfl, rfl, rfl, rfl, rfl, rfl⟩

lemma posStep_inv (cmd : KubectlCommand) (arg : String)
    (hs : hasPre arg "/" = false)
    (hinv : cmd.Name ≠ "" → cmd.Resource ≠ "") :
    (posStep cmd arg).Name ≠ "" → (posStep cmd arg).Resource ≠ "" := by
  unfold posStep
  split_ifs with h1 h2 h3 <;>
    first
      | exact hinv
      | exact fun _ => slashHead_ne_empty arg hs h2
      | exact fun h => absurd h1 (hinv h)
      | exact fun _ => h1

lemma posStep_args (cmd : KubectlCommand) (A : List String) (arg : String) :
    posStep { cmd with Args := A } arg = { posStep cmd arg with Args := A } := by
  unfold posStep
  dsimp only
  split_ifs <;> rfl

lemma eqFlagUpdate_keeps (cmd : KubectlCommand) (arg : String) :
    (eqFlagUpdate cmd arg).Operation = cmd.Operation ∧
    (eqFlagUpdate cmd arg).Args = cmd.Args ∧
    (eqFlagUpdate cmd arg).Resource = cmd.Resource ∧
    (eqFlagUpdate cmd arg).Name = cmd.Name ∧
    (eqFlagUpdate cmd arg).FileInputs = cmd.FileInputs := by
  unfold eqFlagUpdate
  split_ifs <;> exact ⟨rfl, rfl, rfl, rfl, rfl⟩

lemma nsCtxUpdate_keeps (cmd : KubectlCommand) (arg next : String) :
    (nsCtxUpdate cmd arg next).Operation = cmd.Operation ∧
    (nsCtxUpdate cmd arg next).Args = cmd.Args ∧
    (nsCtxUpdate cmd arg next).Resource = cmd.Resource ∧
    (nsCtxUpdate cmd arg next).Name = cmd.Name ∧
    (nsCtxUpdate cmd arg next).FileInputs = cmd.FileInputs := by
  unfold nsCtxUpdate
  split_ifs <;> exact ⟨rfl, rfl, rfl, rfl, rfl⟩

lemma sgfLast_base (ufi : Bool) (cmd : KubectlCommand) (arg : String) :
    (sgfLast ufi cmd arg).Operation = cmd.Operation ∧
    (sgfLast ufi cmd arg).Args = cmd.Args ∧
    (sgfLast ufi cmd arg).Resource = cmd.Resource ∧
    (sgfLast ufi cmd arg).Name = cmd.Name ∧
    (ufi = false → (sgfLast ufi cmd arg).FileInputs = cmd.FileInputs) := by
  unfold sgfLast
  by_cases h1 : ufi = true ∧ hasPre arg "-f=" = true
  · rw [if_pos h1]
    exact ⟨rfl, rfl, rfl, rfl, fun hf => by rw [hf] at h1; exact absurd h1.1 (by decide)⟩
  rw [if_neg h1]
  by_cases h2 : ufi = true ∧ hasPre arg "--filename=" = true
  · rw [if_pos h2]
    exact ⟨rfl, rfl, rfl, rfl, fun hf => by rw [hf] at h2; exact absurd h2.1 (by decide)⟩
  rw [if_neg h2]
  by_cases h3 : arg = "-R" ∨ arg = "--recursive"
  · rw [if_pos h3]
    exact ⟨rfl, rfl, rfl, rfl, fun _ => rfl⟩
  rw [if_neg h3]
  by_cases h4 : arg = "-A" ∨ arg = "--all-namespaces"
  · rw [if_pos h4]
    exact ⟨rfl, rfl, rfl, rfl, fun _ => rfl⟩
  rw [if_neg h4]
  by_cases h5 : arg = "--dry-run" ∨ hasPre arg "--dry-run=" = true
  · rw [if_pos h5]
    exact ⟨rfl, rfl, rfl, rfl, fun _ => rfl⟩
  rw [if_neg h5]
  by_cases h6 : containsChar arg '=' = true
  · rw [if_pos h6]
    have hk := eqFlagUpdate_keeps cmd arg
    exact ⟨hk.1, hk.2.1, hk.2.2.1, hk.2.2.2.1, fun _ => hk.2.2.2.2⟩
  rw [if_neg h6]
  exact ⟨rfl, rfl, rfl, rfl, fun _ => rfl⟩

lemma sgfStep_base (ufi : Bool) (cmd : KubectlCommand) (arg next : String) :
    (sgfStep ufi cmd arg next).1.Operation = cmd.Operation ∧
    (sgfStep ufi cmd arg next).1.Args = cmd.Args ∧
    (sgfStep ufi cmd arg next).1.Resource = cmd.Resource ∧
    (sgfStep ufi cmd arg next).1.Name = cmd.Name ∧
    (sgfStep ufi cmd arg next).2
      = (if containsChar arg '=' = true then false else needsValue arg) ∧
    (ufi = false → (sgfStep ufi cmd arg next).1.FileInputs = cmd.FileInputs) := by
  unfold sgfStep
  by_cases h1 : ufi = true ∧ (arg = "-f" ∨ arg = "--filename")
  · rw [if_pos h1]
    refine ⟨rfl, rfl, rfl, rfl, ?_, fun hf => by rw [hf] at h1; exact absurd h1.1 (by decide)⟩
    rcases h1.2 with h | h <;> subst h <;> dsimp only <;> decide
  rw [if_neg h1]
  by_cases h2 : ufi = true ∧ hasPre arg "-f=" = true
  · rw [if_pos h2]
    refine ⟨rfl, rfl, rfl, rfl, ?_, fun hf => by rw [hf] at h2; exact absurd h2.1 (by decide)⟩
    rw [if_pos (contains_of_hasPre arg "-f=" '=' h2.2 (by decide))]
  rw [if_neg h2]
  by_cases h3 : ufi = true ∧ hasPre arg "--filename=" = true
  · rw [if_pos h3]
    refine ⟨rfl, rfl, rfl, rfl, ?_, fun hf => by rw [hf] at h3; exact absurd h3.1 (by decide)⟩
    rw [if_pos (contains_of_hasPre arg "--filename=" '=' h3.2 (by decide))]
  rw [if_neg h3]
  by_cases h4 : arg = "-R" ∨ arg = "--recursive"
  · rw [if_pos h4]
    refine ⟨rfl, rfl, rfl, rfl, ?_, fun _ => rfl⟩
    rcases h4 with h | h <;> subst h <;> dsimp only <;> decide
  rw [if_neg h4]
  by_cases h5 : arg = "-A" ∨ arg = "--all-namespaces"
  · rw [if_pos h5]
    refine ⟨rfl, rfl, rfl, rfl, ?_, fun _ => rfl⟩
    rcases h5 with h | h <;> subst h <;> dsimp only <;> decide
  rw [if_neg h5]
  by_cases h6 : arg = "--dry-run" ∨ hasPre arg "--dry-run=" = true
  · rw [if_pos h6]
    refine ⟨rfl, rfl, rfl, rfl, ?_, fun _ => rfl⟩
    rcases h6 with h | h
    · subst h; dsimp only; decide
    · rw [if_pos (contains_of_hasPre arg "--dry-run=" '=' h (by decide))]
  rw [if_neg h6]
  by_cases h7 : containsChar arg '=' = true
  · rw [if_pos h7, if_pos h7]
    have hk := eqFlagUpdate_keeps cmd arg
    exact ⟨hk.1, hk.2.1, hk.2.2.1, hk.2.2.2.1, rfl, fun _ => hk.2.2.2.2⟩
  rw [if_neg h7, if_neg h7]
  by_cases h8 : needsValue arg = true
  · rw [if_pos h8]
    have hk := nsCtxUpdate_keeps cmd arg next
    exact ⟨hk.1, hk.2.1, hk.2.2.1, hk.2.2.2.1, h8.symm, fun _ => hk.2.2.2.2⟩
  rw [if_neg h8]
  have h8f : needsValue arg = false := by revert h8; cases needsValue arg <;> simp
  exact ⟨rfl, rfl, rfl, rfl, h8f.symm, fun _ => rfl⟩

lemma restLast_base (ufi : Bool) (cmd : KubectlCommand) (arg : String) :
    (restLast ufi cmd arg).Operation = cmd.Operation ∧
    (restLast ufi cmd arg).Args = cmd.Args ∧
    (((restLast ufi cmd arg).Resource = cmd.Resource ∧
      (restLast ufi cmd arg).Name = cmd.Name) ∨
      restLast ufi cmd arg = posStep cmd arg) ∧
    (ufi = false → (restLast ufi cmd arg).FileInputs = cmd.FileInputs) := by
  unfold restLast
  by_cases h1 : ufi = true ∧ hasPre arg "-f=" = true
  · rw [if_pos h1]
    exact ⟨rfl, rfl, Or.inl ⟨rfl, rfl⟩,
      fun hf => by rw [hf] at h1; exact absurd h1.1 (by decide)⟩
  rw [if_neg h1]
  by_cases h2 : ufi = true ∧ hasPre arg "--filename=" = true
  · rw [if_pos h2]
    exact ⟨rfl, rfl, Or.inl ⟨rfl, rfl⟩,
      fun hf => by rw [hf] at h2; exact absurd h2.1 (by decide)⟩
  rw [if_neg h2]
  by_cases h3 : arg = "-R" ∨ arg = "--recursive"
  · rw [if_pos h3]
    exact ⟨rfl, rfl, Or.inl ⟨rfl, rfl⟩, fun _ => rfl⟩
  rw [if_neg h3]
  by_cases h4 : arg = "-A" ∨ arg = "--all-namespaces"
  · rw [if_pos h4]
    exact ⟨rfl, rfl, Or.inl ⟨rfl, rfl⟩, fun _ => rfl⟩
  rw [if_neg h4]
  by_cases h5 : arg = "--dry-run" ∨ hasPre arg "--dry-run=" = true
  · rw [if_pos h5]
    exact ⟨rfl, rfl, Or.inl ⟨rfl, rfl⟩, fun _ => rfl⟩
  rw [if_neg h5]
  by_cases h6 : hasPre arg "-n=" = true
  · rw [if_pos h6]
    exact ⟨rfl, rfl, Or.inl ⟨rfl, rfl⟩, fun _ => rfl⟩
  rw [if_neg h6]
  by_cases h7 : hasPre arg "--namespace=" = true
  · rw [if_pos h7]
    exact ⟨rfl, rfl, Or.inl ⟨rfl, rfl⟩, fun _ => rfl⟩
  rw [if_neg h7]
  by_cases h8 : hasPre arg "--context=" = true
  · rw [if_pos h8]
    exact ⟨rfl, rfl, Or.inl ⟨rfl, rfl⟩, fun _ => rfl⟩
  rw [if_neg h8]
  by_cases h9 : hasPre arg "-" = true
  · rw [if_pos h9]
    exact ⟨rfl, rfl, Or.inl ⟨rfl, rfl⟩, fun _ => rfl⟩
  rw [if_neg h9]
  have hk := posStep_keeps cmd arg
  exact ⟨hk.1, hk.2.1, Or.inr rfl, fun _ => hk.2.2.2.2.1⟩

lemma restStep_base (ufi : Bool) (cmd : KubectlCommand) (arg next : String) :
    (restStep ufi cmd arg next).1.Operation = cmd.Operation ∧
    (restStep ufi cmd arg next).1.Args = cmd.Args ∧
    (restStep ufi cmd arg next).2 = consumesNext arg ∧
    (((restStep ufi cmd arg next).1.Resource = cmd.Resource ∧
      (restStep ufi cmd arg next).1.Name = cmd.Name) ∨
      (restStep ufi cmd arg next).1 = posStep cmd arg) ∧
    (ufi = false → (restStep ufi cmd arg next).1.FileInputs = cmd.FileInputs) := by
  unfold restStep
  by_cases h1 : ufi = true ∧ (arg = "-f" ∨ arg = "--filename")
  · rw [if_pos h1]
    refine ⟨rfl, rfl, ?_, Or.inl ⟨rfl, rfl⟩,
      fun hf => by rw [hf] at h1; exact absurd h1.1 (by decide)⟩
    rcases h1.2 with h | h <;> subst h <;> dsimp only <;> decide
  rw [if_neg h1]
  by_cases h2 : ufi = true ∧ hasPre arg "-f=" = true
  · rw [if_pos h2]
    refine ⟨rfl, rfl, ?_, Or.inl ⟨rfl, rfl⟩,
      fun hf => by rw [hf] at h2; exact absurd h2.1 (by decide)⟩
    simp [consumesNext, contains_of_hasPre arg "-f=" '=' h2.2 (by decide)]
  rw [if_neg h2]
  by_cases h3 : ufi = true ∧ hasPre arg "--filename=" = true
  · rw [if_pos h3]
    refine ⟨rfl, rfl, ?_, Or.inl ⟨rfl, rfl⟩,
      fun hf => by rw [hf] at h3; exact absurd h3.1 (by decide)⟩
    simp [consumesNext, contains_of_hasPre arg "--filename=" '=' h3.2 (by decide)]
  rw [if_neg h3]
  by_cases h4 : arg = "-R" ∨ arg = "--recursive"
  · rw [if_pos h4]
    refine ⟨rfl, rfl, ?_, Or.inl ⟨rfl, rfl⟩, fun _ => rfl⟩
    rcases h4 with h | h <;> subst h <;> dsimp only <;> decide
  rw [if_neg h4]
  by_cases h5 : arg = "-A" ∨ arg = "--all-namespaces"
  · rw [if_pos h5]
    refine ⟨rfl, rfl, ?_, Or.inl ⟨rfl, rfl⟩, fun _ => rfl⟩
    rcases h5 with h | h <;> subst h <;> dsimp only <;> decide
  rw [if_neg h5]
  by_cases h6 : arg = "--dry-run" ∨ hasPre arg "--dry-run=" = true
  · rw [if_pos h6]
    refine ⟨rfl, rfl, ?_, Or.inl ⟨rfl, rfl⟩, fun _ => rfl⟩
    rcases h6 with h | h
    · subst h; dsimp only; decide
    · simp [consumesNext, contains_of_hasPre arg "--dry-run=" '=' h (by decide)]
  rw [if_neg h6]
  by_cases h7 : arg = "-n" ∨ arg = "--namespace"
  · rw [if_pos h7]
    refine ⟨rfl, rfl, ?_, Or.inl ⟨rfl, rfl⟩, fun _ => rfl⟩
    rcases h7 with h | h <;> subst h <;> dsimp only <;> decide
  rw [if_neg h7]
  by_cases h8 : hasPre arg "-n=" = true
  · rw [if_pos h8]
    refine ⟨rfl, rfl, ?_, Or.inl ⟨rfl, rfl⟩, fun _ => rfl⟩
    simp [consumesNext, contains_of_hasPre arg "-n=" '=' h8 (by decide)]
  rw [if_neg h8]
  by_cases h9 : hasPre arg "--namespace=" = true
  · rw [if_pos h9]
    refine ⟨rfl, rfl, ?_, Or.inl ⟨rfl, rfl⟩, fun _ => rfl⟩
    simp [consumesNext, contains_of_hasPre arg "--namespace=" '=' h9 (by decide)]
  rw [if_neg h9]
  by_cases h10 : arg = "--context"
  · rw [if_pos h10]
    refine ⟨rfl, rfl, ?_, Or.inl ⟨rfl, rfl⟩, fun _ => rfl⟩
    subst h10; dsimp only; decide
  rw [if_neg h10]
  by_cases h11 : hasPre arg "--context=" = true
  · rw [if_pos h11]
    refine ⟨rfl, rfl, ?_, Or.inl ⟨rfl, rfl⟩, fun _ => rfl⟩
    simp [consumesNext, contains_of_hasPre arg "--context=" '=' h11 (by decide)]
  rw [if_neg h11]
  by_cases h12 : hasPre arg "-" = true
  · rw [if_pos h12]
    refine ⟨rfl, rfl, ?_, Or.inl ⟨rfl, rfl⟩, fun _ => rfl⟩
    dsimp only
    by_cases hcon : containsChar arg '=' = true
    · rw [if_pos hcon]
      simp [consumesNext, hcon]
    · rw [if_neg hcon]
      have hcf : containsChar arg '=' = false := by
        revert hcon; cases containsChar arg '=' <;> simp
      simp [consumesNext, h12, hcf]
  rw [if_neg h12]
  have hpf : hasPre arg "-" = false := by
    revert h12; cases hasPre arg "-" <;> simp
  have hk := posStep_keeps cmd arg
  exact ⟨hk.1, hk.2.1, by simp [consumesNext, hpf], Or.inr rfl, fun _ => hk.2.2.2.2.1⟩

lemma restStep_args (ufi : Bool) (cmd : KubectlCommand) (A : List String)
    (arg next : String) :
    restStep ufi { cmd with Args := A } arg next
      = ({ (restStep ufi cmd arg next).1 with Args := A },
         (restStep ufi cmd arg next).2) := by
  unfold restStep
  by_cases h1 : ufi = true ∧ (arg = "-f" ∨ arg = "--filename")
  · simp only [if_pos h1]
  simp only [if_neg h1]
  by_cases h2 : ufi = true ∧ hasPre arg "-f=" = true
  · simp only [if_pos h2]
  simp only [if_neg h2]
  by_cases h3 : ufi = true ∧ hasPre arg "--filename=" = true
  · simp only [if_pos h3]
  simp only [if_neg h3]
  by_cases h4 : arg = "-R" ∨ arg = "--recursive"
  · simp only [if_pos h4]
  simp only [if_neg h4]
  by_cases h5 : arg = "-A" ∨ arg = "--all-namespaces"
  · simp only [if_pos h5]
  simp only [if_neg h5]
  by_cases h6 : arg = "--dry-run" ∨ hasPre arg "--dry-run=" = true
  · simp only [if_pos h6]
  simp only [if_neg h6]
  by_cases h7 : arg = "-n" ∨ arg = "--namespace"
  · simp only [if_pos h7]
  simp only [if_neg h7]
  by_cases h8 : hasPre arg "-n=" = true
  · simp only [if_pos h8]
  simp only [if_neg h8]
  by_cases h9 : hasPre arg "--namespace=" = true
  · simp only [if_pos h9]
  simp only [if_neg h9]
  by_cases h10 : arg = "--context"
  · simp only [if_pos h10]
  simp only [if_neg h10]
  by_cases h11 : hasPre arg "--context=" = true
  · simp only [if_pos h11]
  simp only [if_neg h11]
  by_cases h12 : hasPre arg "-" = true
  · simp only [if_pos h12]
  simp only [if_neg h12]
  rw [posStep_args]

lemma restLast_args (ufi : Bool) (cmd : KubectlCommand) (A : List String) (arg : String) :
    restLast ufi { cmd with Args := A } arg
      = { restLast ufi cmd arg with Args := A } := by
  unfold restLast
  by_cases h1 : ufi = true ∧ hasPre arg "-f=" = true
  · simp only [if_pos h1]
  simp only [if_neg h1]
  by_cases h2 : ufi = true ∧ hasPre arg "--filename=" = true
  · simp only [if_pos h2]
  simp only [if_neg h2]
  by_cases h3 : arg = "-R" ∨ arg = "--recursive"
  · simp only [if_pos h3]
  simp only [if_neg h3]
  by_cases h4 : arg = "-A" ∨ arg = "--all-namespaces"
  · simp only [if_pos h4]
  simp only [if_neg h4]
  by_cases h5 : arg = "--dry-run" ∨ hasPre arg "--dry-run=" = true
  · simp only [if_pos h5]
  simp only [if_neg h5]
  by_cases h6 : hasPre arg "-n=" = true
  · simp only [if_pos h6]
  simp only [if_neg h6]
  by_cases h7 : hasPre arg "--namespace=" = true
  · simp only [if_pos h7]
  simp only [if_neg h7]
  by_cases h8 : hasPre arg "--context=" = true
  · simp only [if_pos h8]
  simp only [if_neg h8]
  by_cases h9 : hasPre arg "-" = true
  · simp only [if_pos h9]
  simp only [if_neg h9]
  rw [posStep_args]

lemma lastCond_tail {P : String → Prop} (a : String) (l : List String)
    (h : ∀ t, (a :: l).getLast? = some t → P t) :
    ∀ t, l.getLast? = some t → P t := by
  intro t ht
  apply h
  cases l with
  | nil => simp at ht
  | cons x xs => rw [List.getLast?_cons_cons]; exact ht

lemma restLoop_base (ufi : Bool) :
    ∀ (n : ℕ) (args : List String) (cmd : KubectlCommand), args.length ≤ n →
      (restLoop ufi cmd args).Operation = cmd.Operation ∧
      (restLoop ufi cmd args).Args = cmd.Args ∧
      (ufi = false → (restLoop ufi cmd args).FileInputs = cmd.FileInputs) := by
  intro n
  induction n with
  | zero =>
    intro args cmd hlen
    have h0 : args = [] := List.length_eq_zero.mp (Nat.le_zero.mp hlen)
    subst h0
    exact ⟨rfl, rfl, fun _ => rfl⟩
  | succ n ih =>
    intro args cmd hlen
    match args with
    | [] => exact ⟨rfl, rfl, fun _ => rfl⟩
    | [arg] =>
      by_cases hd : arg = "--"
      · simp only [restLoop, if_pos hd]
        exact ⟨by simp, by simp, by simp⟩
      · simp only [restLoop, if_neg hd]
        have hb := restLast_base ufi cmd arg
        exact ⟨hb.1, hb.2.1, hb.2.2.2⟩
    | arg :: next :: rest =>
      have hlen1 : (next :: rest).length ≤ n := by simp at hlen ⊢; omega
      have hlen2 : rest.length ≤ n := by simp at hlen; omega
      by_cases hd : arg = "--"
      · simp only [restLoop, if_pos hd]
        exact ⟨by simp, by simp, by simp⟩
      · simp only [restLoop, if_neg hd]
        have hs := restStep_base ufi cmd arg next
        by_cases h2 : (restStep ufi cmd arg next).2 = true
        · rw [if_pos h2]
          have ihh := ih rest (restStep ufi cmd arg next).1 hlen2
          exact ⟨ihh.1.trans hs.1, ihh.2.1.trans hs.2.1,
            fun hf => (ihh.2.2 hf).trans (hs.2.2.2.2 hf)⟩
        · rw [if_neg h2]
          have ihh := ih (next :: rest) (restStep ufi cmd arg next).1 hlen1
          exact ⟨ihh.1.trans hs.1, ihh.2.1.trans hs.2.1,
            fun hf => (ihh.2.2 hf).trans (hs.2.2.2.2 hf)⟩

lemma restLoop_inv (ufi : Bool) :
    ∀ (n : ℕ) (args : List String) (cmd : KubectlCommand), args.length ≤ n →
      (∀ t ∈ args, hasPre t "/" = false) →
      (cmd.Name ≠ "" → cmd.Resource ≠ "") →
      ((restLoop ufi cmd args).Name ≠ "" → (restLoop ufi cmd args).Resource ≠ "") := by
  intro n
  induction n with
  | zero =>
    intro args cmd hlen _ hinv
    have h0 : args = [] := List.length_eq_zero.mp (Nat.le_zero.mp hlen)
    subst h0
    exact hinv
  | succ n ih =>
    intro args cmd hlen hall hinv
    match args with
    | [] => exact hinv
    | [arg] =>
      by_cases hd : arg = "--"
      · simp only [restLoop, if_pos hd]
        exact hinv
      · simp only [restLoop, if_neg hd]
        have harg : hasPre arg "/" = false := hall arg (List.mem_cons_self _ _)
        have hb := restLast_base ufi cmd arg
        rcases hb.2.2.1 with ⟨hr, hn⟩ | hpos
        · intro h
          rw [hr]
          exact hinv (by rw [← hn]; exact h)
        · rw [hpos]
          exact posStep_inv cmd arg harg hinv
    | arg :: next :: rest =>
      have hlen1 : (next :: rest).length ≤ n := by simp at hlen ⊢; omega
      have hlen2 : rest.length ≤ n := by simp at hlen; omega
      have hall1 : ∀ t ∈ next :: rest, hasPre t "/" = false :=
        fun t ht => hall t (List.mem_cons_of_mem _ ht)
      have hall2 : ∀ t ∈ rest, hasPre t "/" = false :=
        fun t ht => hall1 t (List.mem_cons_of_mem _ ht)
      have harg : hasPre arg "/" = false := hall arg (List.mem_cons_self _ _)
      by_cases hd : arg = "--"
      · simp only [restLoop, if_pos hd]
        exact hinv
      · simp only [restLoop, if_neg hd]
        have hs := restStep_base ufi cmd arg next
        have hinv2 : (restStep ufi cmd arg next).1.Name ≠ "" →
            (restStep ufi cmd arg next).1.Resource ≠ "" := by
          rcases hs.2.2.2.1 with ⟨hr, hn⟩ | hpos
          · intro h
            rw [hr]
            exact hinv (by rw [← hn]; exact h)
          · rw [hpos]
            exact posStep_inv cmd arg harg hinv
        by_cases h2 : (restStep ufi cmd arg next).2 = true
        · rw [if_pos h2]
          exact ih rest _ hlen2 hall2 hinv2
        · rw [if_neg h2]
          exact ih (next :: rest) _ hlen1 hall1 hinv2

lemma restLoop_args (ufi : Bool) :
    ∀ (n : ℕ) (args : List String) (cmd : KubectlCommand) (A : List String),
      args.length ≤ n →
      restLoop ufi { cmd with Args := A } args = { restLoop ufi cmd args with Args := A } := by
  intro n
  induction n with
  | zero =>
    intro args cmd A hlen
    have h0 : args = [] := List.length_eq_zero.mp (Nat.le_zero.mp hlen)
    subst h0
    rfl
  | succ n ih =>
    intro args cmd A hlen
    match args with
    | [] => rfl
    | [arg] =>
      by_cases hd : arg = "--"
      · simp only [restLoop, if_pos hd]
      · simp only [restLoop, if_neg hd]
        exact restLast_args ufi cmd A arg
    | arg :: next :: rest =>
      have hlen1 : (next :: rest).length ≤ n := by simp at hlen ⊢; omega
      have hlen2 : rest.length ≤ n := by simp at hlen; omega
      by_cases hd : arg = "--"
      · simp only [restLoop, if_pos hd]
      · simp only [restLoop, if_neg hd, restStep_args]
        by_cases h2 : (restStep ufi cmd arg next).2 = true
        · rw [if_pos h2, if_pos h2]
          exact ih rest _ A hlen2
        · rw [if_neg h2, if_neg h2]
          exact ih (next :: rest) _ A hlen1

lemma restLoop_dd (ufi : Bool) :
    ∀ (n : ℕ) (l₁ l₂ : List String) (cmd : KubectlCommand), l₁.length ≤ n →
      "--" ∉ l₁ →
      (∀ t, l₁.getLast? = some t → consumesNext t = false) →
      restLoop ufi cmd (l₁ ++ "--" :: l₂) = restLoop ufi cmd (l₁ ++ ["--"]) := by
  intro n
  induction n with
  | zero =>
    intro l₁ l₂ cmd hlen _ _
    have h0 : l₁ = [] := List.length_eq_zero.mp (Nat.le_zero.mp hlen)
    subst h0
    cases l₂ <;> simp [restLoop]
  | succ n ih =>
    intro l₁ l₂ cmd hlen hdd hlast
    match l₁ with
    | [] => cases l₂ <;> simp [restLoop]
    | t :: l₁ =>
      have ht : ¬(t = "--") := fun he => hdd (he ▸ List.mem_cons_self _ _)
      match l₁ with
      | [] =>
        have hc : consumesNext t = false := hlast t rfl
        simp only [List.cons_append, List.nil_append, restLoop, if_neg ht]
        have h2 : (restStep ufi cmd t "--").2 = false :=
          ((restStep_base ufi cmd t "--").2.2.1).trans hc
        rw [if_neg (by rw [h2]; exact Bool.false_ne_true), if_neg (by rw [h2]; exact Bool.false_ne_true)]
        cases l₂ <;> simp [restLoop]
      | r :: rs =>
        have hlen2 : (r :: rs).length ≤ n := by simp at hlen ⊢; omega
        have hlen3 : rs.length ≤ n := by simp at hlen; omega
        have hdd2 : "--" ∉ r :: rs := fun hm => hdd (List.mem_cons_of_mem _ hm)
        have hlast2 : ∀ u, (r :: rs).getLast? = some u → consumesNext u = false :=
          lastCond_tail t _ hlast
        have hlast3 : ∀ u, rs.getLast? = some u → consumesNext u = false :=
          lastCond_tail r _ hlast2
        have hdd3 : "--" ∉ rs := fun hm => hdd2 (List.mem_cons_of_mem _ hm)
        simp only [List.cons_append, restLoop, if_neg ht]
        by_cases h2 : (restStep ufi cmd t r).2 = true
        · rw [if_pos h2, if_pos h2]
          exact ih rs l₂ _ hlen3 hdd3 hlast3
        · rw [if_neg h2, if_neg h2]
          exact ih (r :: rs) l₂ _ hlen2 hdd2 hlast2

lemma sgf_base (ufi : Bool) :
    ∀ (n : ℕ) (args : List String) (cmd : KubectlCommand), args.length ≤ n →
      (sgf ufi cmd args).1.Operation = cmd.Operation ∧
      (sgf ufi cmd args).1.Resource = cmd.Resource ∧
      (sgf ufi cmd args).1.Name = cmd.Name ∧
      (ufi = false → (sgf ufi cmd args).1.FileInputs = cmd.FileInputs) ∧
      ((sgf ufi cmd args).2).Sublist args := by
  intro n
  induction n with
  | zero =>
    intro args cmd hlen
    have h0 : args = [] := List.length_eq_zero.mp (Nat.le_zero.mp hlen)
    subst h0
    exact ⟨rfl, rfl, rfl, fun _ => rfl, List.Sublist.refl _⟩
  | succ n ih =>
    intro args cmd hlen
    match args with
    | [] => exact ⟨rfl, rfl, rfl, fun _ => rfl, List.Sublist.refl _⟩
    | [arg] =>
      by_cases hf : hasPre arg "-" = false
      · simp only [sgf, if_pos hf]
        exact ⟨by simp, by simp, by simp, by simp, List.Sublist.refl _⟩
      · simp only [sgf, if_neg hf]
        have hb := sgfLast_base ufi cmd arg
        exact ⟨hb.1, hb.2.2.1, hb.2.2.2.1, hb.2.2.2.2, List.nil_sublist _⟩
    | arg :: next :: rest =>
      have hlen1 : (next :: rest).length ≤ n := by simp at hlen ⊢; omega
      have hlen2 : rest.length ≤ n := by simp at hlen; omega
      have hsub1 : (next :: rest).Sublist (arg :: next :: rest) := List.sublist_cons_self _ _
      have hsub2 : rest.Sublist (arg :: next :: rest) :=
        List.Sublist.trans (List.sublist_cons_self _ _) hsub1
      by_cases hf : hasPre arg "-" = false
      · simp only [sgf, if_pos hf]
        exact ⟨by simp, by simp, by simp, by simp, List.Sublist.refl _⟩
      · simp only [sgf, if_neg hf]
        have hs := sgfStep_base ufi cmd arg next
        by_cases h2 : (sgfStep ufi cmd arg next).2 = true
        · rw [if_pos h2]
          have ihh := ih rest (sgfStep ufi cmd arg next).1 hlen2
          exact ⟨ihh.1.trans hs.1, ihh.2.1.trans hs.2.2.1, ihh.2.2.1.trans hs.2.2.2.1,
            fun hff => (ihh.2.2.2.1 hff).trans (hs.2.2.2.2.2 hff),
            List.Sublist.trans ihh.2.2.2.2 hsub2⟩
        · rw [if_neg h2]
          have ihh := ih (next :: rest) (sgfStep ufi cmd arg next).1 hlen1
          exact ⟨ihh.1.trans hs.1, ihh.2.1.trans hs.2.2.1, ihh.2.2.1.trans hs.2.2.2.1,
            fun hff => (ihh.2.2.2.1 hff).trans (hs.2.2.2.2.2 hff),
            List.Sublist.trans ihh.2.2.2.2 hsub1⟩

lemma sgf_op (ufi : Bool) :
    ∀ (n : ℕ) (args : List String) (cmd : KubectlCommand), args.length ≤ n →
      findOperation args
        = (match (sgf ufi cmd args).2 with
           | [] => ""
           | op :: _ => op) := by
  intro n
  induction n with
  | zero =>
    intro args cmd hlen
    have h0 : args = [] := List.length_eq_zero.mp (Nat.le_zero.mp hlen)
    subst h0
    rfl
  | succ n ih =>
    intro args cmd hlen
    match args with
    | [] => rfl
    | [arg] =>
      by_cases hf : hasPre arg "-" = false
      · simp only [sgf, if_pos hf, findOperation]
        rw [if_neg (by rw [hf]; exact Bool.false_ne_true)]
      · have hft : hasPre arg "-" = true := by
          revert hf; cases hasPre arg "-" <;> simp
        simp only [sgf, if_neg hf, findOperation, if_pos hft]
    | arg :: next :: rest =>
      have hlen1 : (next :: rest).length ≤ n := by simp at hlen ⊢; omega
      have hlen2 : rest.length ≤ n := by simp at hlen; omega
      by_cases hf : hasPre arg "-" = false
      · simp only [sgf, if_pos hf, findOperation]
        rw [if_neg (by rw [hf]; exact Bool.false_ne_true)]
      · have hft : hasPre arg "-" = true := by
          revert hf; cases hasPre arg "-" <;> simp
        simp only [sgf, if_neg hf, findOperation, if_pos hft]
        have hsnd := (sgfStep_base ufi cmd arg next).2.2.2.2.1
        by_cases hcon : containsChar arg '=' = true
        · rw [if_pos hcon]
          have h2 : (sgfStep ufi cmd arg next).2 = false := by rw [hsnd, if_pos hcon]
          rw [if_neg (by rw [h2]; exact Bool.false_ne_true)]
          exact ih (next :: rest) _ hlen1
        · rw [if_neg hcon]
          by_cases hnv : needsValue arg = true
          · rw [if_pos hnv]
            have h2 : (sgfStep ufi cmd arg next).2 = true := by
              rw [hsnd, if_neg hcon]; exact hnv
            rw [if_pos h2]
            exact ih rest _ hlen2
          · rw [if_neg hnv]
            have h2 : (sgfStep ufi cmd arg next).2 = false := by
              rw [hsnd, if_neg hcon]
              revert hnv; cases needsValue arg <;> simp
            rw [if_neg (by rw [h2]; exact Bool.false_ne_true)]
            exact ih (next :: rest) _ hlen1

lemma Parse_operation (args : List String) :
    (Parse args).Operation = findOperation args := by
  by_cases h0 : args = []
  · subst h0; rfl
  · simp only [Parse, if_neg h0]
    have hop := sgf_op (fileInputOperations.contains (findOperation args)) args.length args
      { Args := args, Namespace := "" } (Nat.le_refl _)
    rcases hsp : (sgf (fileInputOperations.contains (findOperation args))
        { Args := args, Namespace := "" } args).2 with _ | ⟨op, rest2⟩
    · rw [hsp] at hop
      simp only [hsp]
      have h1 := (sgf_base (fileInputOperations.contains (findOperation args)) args.length args
        { Args := args, Namespace := "" } (Nat.le_refl _)).1
      rw [h1]
      exact hop.symm
    · rw [hsp] at hop
      simp only [hsp]
      have h1 := (restLoop_base (fileInputOperations.contains (findOperation args))
        (skipSubcommand (operationsWithSubcommands (findOperation args)) rest2).length
        (skipSubcommand (operationsWithSubcommands (findOperation args)) rest2)
        { (sgf (fileInputOperations.contains (findOperation args))
            { Args := args, Namespace := "" } args).1 with Operation := op }
        (Nat.le_refl _)).1
      exact h1.trans hop.symm

lemma skipSubcommand_subset (subs rest : List String) :
    ∀ t ∈ skipSubcommand subs rest, t ∈ rest := by
  unfold skipSubcommand
  by_cases hs : subs = []
  · rw [if_pos hs]
    exact fun t ht => ht
  · rw [if_neg hs]
    cases rest with
    | nil => intro t ht; exact absurd ht (List.not_mem_nil t)
    | cons nxt r =>
      intro t ht
      have ht2 : t ∈ if subs.contains nxt = true then r else nxt :: r := ht
      by_cases hc : subs.contains nxt = true
      · rw [if_pos hc] at ht2
        exact List.mem_cons_of_mem _ ht2
      · rw [if_neg hc] at ht2
        exact ht2

lemma Parse_fi (args : List String)
    (h : fileInputOperations.contains (findOperation args) = false) :
    (Parse args).FileInputs = [] := by
  by_cases h0 : args = []
  · subst h0; rfl
  · simp only [Parse, if_neg h0]
    rcases hsp : (sgf (fileInputOperations.contains (findOperation args))
        { Args := args, Namespace := "" } args).2 with _ | ⟨op, rest2⟩
    · simp only [hsp]
      exact ((sgf_base _ args.length args _ (Nat.le_refl _)).2.2.2.1 h).trans rfl
    · simp only [hsp]
      have h2 := (restLoop_base (fileInputOperations.contains (findOperation args))
        (skipSubcommand (operationsWithSubcommands (findOperation args)) rest2).length
        (skipSubcommand (operationsWithSubcommands (findOperation args)) rest2)
        { (sgf (fileInputOperations.contains (findOperation args))
            { Args := args, Namespace := "" } args).1 with Operation := op }
        (Nat.le_refl _)).2.2 h
      have h3 := (sgf_base _ args.length args
        { Args := args, Namespace := "" } (Nat.le_refl _)).2.2.2.1 h
      exact h2.trans (h3.trans rfl)

/-- Claim C7: the parser only ever collects file inputs for operations in the
fixed file-input-operation set — for every token list, a non-empty fileInputs
implies the parsed operation is in that set. -/
theorem parse_file_inputs_only_for_file_ops (args : List String)
    (h : (Parse args).FileInputs ≠ []) :
    fileInputOperations.contains ((Parse args).Operation) = true := by
  rw [Parse_operation]
  by_cases hc : fileInputOperations.contains (findOperation args) = true
  · exact hc
  · have hcf : fileInputOperations.contains (findOperation args) = false := by
      revert hc; cases fileInputOperations.contains (findOperation args) <;> simp
    exact absurd (Parse_fi args hcf) h

/-- Witness for C7 at the spec's two examples: `apply -f deploy.yaml` collects
`deploy.yaml` (and `apply` is a file-input operation), while for `logs` the
`-f` flag means follow and collects nothing. -/
theorem parse_file_inputs_only_for_file_ops_witness :
    (Parse ["apply", "-f", "deploy.yaml"]).FileInputs = ["deploy.yaml"] ∧
    fileInputOperations.contains ((Parse ["apply", "-f", "deploy.yaml"]).Operation) = true ∧
    (Parse ["logs", "nginx-pod", "-f", "--tail", "100"]).FileInputs = [] := by
  refine ⟨by decide, parse_file_inputs_only_for_file_ops _ (by decide), by decide⟩

/-- Counterexample to claim C5 as stated: a positional token beginning with a
slash splits into an empty kind and a non-empty name, so `delete /nginx`
parses to resourceName `nginx` with an empty resourceKind. -/
theorem parse_name_requires_kind_cex :
    (Parse ["delete", "/nginx"]).Name = "nginx" ∧
    (Parse ["delete", "/nginx"]).Resource = "" := by
  decide

/-- Claim C5 (amended): for every token list none of whose tokens begins with
a slash, the ParsedCommand satisfies the invariant — resourceName is never
populated unless resourceKind is also populated.  (A token with a leading
slash defeats it by splitting into an empty kind and non-empty name.) -/
theorem parse_name_requires_kind (args : List String)
    (hall : ∀ t ∈ args, hasPre t "/" = false) :
    (Parse args).Name ≠ "" → (Parse args).Resource ≠ "" := by
  by_cases h0 : args = []
  · subst h0
    intro h
    exact absurd rfl h
  · simp only [Parse, if_neg h0]
    rcases hsp : (sgf (fileInputOperations.contains (findOperation args))
        { Args := args, Namespace := "" } args).2 with _ | ⟨op, rest2⟩
    · simp only [hsp]
      intro h
      exact absurd ((sgf_base _ args.length args _ (Nat.le_refl _)).2.2.1.trans rfl) h
    · simp only [hsp]
      have hsubl := (sgf_base (fileInputOperations.contains (findOperation args))
        args.length args { Args := args, Namespace := "" } (Nat.le_refl _)).2.2.2.2
      rw [hsp] at hsubl
      have hr2 : ∀ t ∈ rest2, t ∈ args :=
        fun t ht => hsubl.subset (List.mem_cons_of_mem _ ht)
      apply restLoop_inv _ _ _ _ (Nat.le_refl _)
      · intro t ht
        exact hall t (hr2 t (skipSubcommand_subset _ _ t ht))
      · intro h
        exact absurd ((sgf_base _ args.length args _ (Nat.le_refl _)).2.2.1.trans rfl) h

/-- Witness for the amended C5 on a slash-free token list. -/
theorem parse_name_requires_kind_witness :
    (∀ t ∈ ["delete", "pod", "nginx"], hasPre t "/" = false) ∧
    (Parse ["delete", "pod", "nginx"]).Name = "nginx" ∧
    (Parse ["delete", "pod", "nginx"]).Resource ≠ "" := by
  refine ⟨by decide, by decide, ?_⟩
  exact parse_name_requires_kind _ (by decide) (by decide)

lemma findOperation_cons (a : String) (l : List String) (h : hasPre a "-" = false) :
    findOperation (a :: l) = a := by
  cases l with
  | nil =>
    simp only [findOperation]
    rw [if_neg (by rw [h]; exact Bool.false_ne_true)]
  | cons b r =>
    simp only [findOperation]
    rw [if_neg (by rw [h]; exact Bool.false_ne_true)]

lemma sgf_cons (ufi : Bool) (cmd : KubectlCommand) (a : String) (l : List String)
    (h : hasPre a "-" = false) :
    sgf ufi cmd (a :: l) = (cmd, a :: l) := by
  cases l with
  | nil => simp only [sgf]; rw [if_pos h]
  | cons b r => simp only [sgf]; rw [if_pos h]

lemma subc_no_ddash (s : String) :
    ((operationsWithSubcommands s).contains "--") = false := by
  unfold operationsWithSubcommands
  split_ifs <;> decide

/-- Counterexample to claim C6 as stated: a leading `--` is treated by the
lookahead and leading-flag loop as an ordinary unknown flag, not a separator,
so for `["--","delete","pod","nginx"]` the tokens after the first `--`
populate the operation, resourceKind and resourceName. -/
theorem parse_double_dash_cex :
    (Parse ["--", "delete", "pod", "nginx"]).Resource = "pod" ∧
    (Parse ["--", "delete", "pod", "nginx"]).Name = "nginx" := by
  decide

/-- Claim C6 (amended): tokens after the first `--` are never inspected when
the `--` is reached by the resource-parsing pass as a standalone token: for a
token list whose first token is the operation (not flag-shaped), whose
pre-`--` tokens do not themselves contain `--`, and whose token immediately
before `--` (if any) is not a bare value-taking flag that would swallow the
`--` as its value, the parse result is identical — in every field except the
verbatim rawArgs — whatever follows the `--`.  In particular
`exec nginx -- /bin/sh -c ls` yields resourceKind `nginx` and empty
resourceName. -/
theorem parse_double_dash (op : String) (l₁ l₂ : List String)
    (hop : hasPre op "-" = false)
    (hdd : "--" ∉ l₁)
    (hlast : ∀ t, l₁.getLast? = some t → consumesNext t = false) :
    Parse (op :: (l₁ ++ "--" :: l₂))
      = { Parse (op :: (l₁ ++ ["--"])) with Args := op :: (l₁ ++ "--" :: l₂) } := by
  have hL0 : ¬(op :: (l₁ ++ "--" :: l₂) = []) := by simp
  have hR0 : ¬(op :: (l₁ ++ ["--"]) = []) := by simp
  have hfL : findOperation (op :: (l₁ ++ "--" :: l₂)) = op := findOperation_cons _ _ hop
  have hfR : findOperation (op :: (l₁ ++ ["--"])) = op := findOperation_cons _ _ hop
  have e3 : restLoop (fileInputOperations.contains op) ({ Operation := op } : KubectlCommand)
        (skipSubcommand (operationsWithSubcommands op) (l₁ ++ "--" :: l₂))
      = restLoop (fileInputOperations.contains op) ({ Operation := op } : KubectlCommand)
        (skipSubcommand (operationsWithSubcommands op) (l₁ ++ ["--"])) := by
    by_cases hsc : operationsWithSubcommands op = []
    · simp only [skipSubcommand, if_pos hsc]
      exact restLoop_dd _ l₁.length l₁ l₂ _ (Nat.le_refl _) hdd hlast
    · simp only [skipSubcommand, if_neg hsc]
      cases l₁ with
      | nil =>
        simp only [List.nil_append]
        rw [if_neg (by rw [subc_no_ddash op]; exact Bool.false_ne_true),
          if_neg (by rw [subc_no_ddash op]; exact Bool.false_ne_true)]
        exact restLoop_dd _ 0 [] l₂ _ (Nat.le_refl _) (by simp) (by simp)
      | cons h t =>
        simp only [List.cons_append]
        have hdd2 : "--" ∉ t := fun hm => hdd (List.mem_cons_of_mem _ hm)
        have hlast2 : ∀ u, t.getLast? = some u → consumesNext u = false :=
          lastCond_tail h t hlast
        by_cases hc : (operationsWithSubcommands op).contains h = true
        · rw [if_pos hc, if_pos hc]
          exact restLoop_dd _ t.length t l₂ _ (Nat.le_refl _) hdd2 hlast2
        · rw [if_neg hc, if_neg hc]
          exact restLoop_dd _ (h :: t).length (h :: t) l₂ _ (Nat.le_refl _) hdd hlast
  have step1 : Parse (op :: (l₁ ++ "--" :: l₂))
      = { restLoop (fileInputOperations.contains op) ({ Operation := op } : KubectlCommand)
            (skipSubcommand (operationsWithSubcommands op) (l₁ ++ "--" :: l₂))
          with Args := op :: (l₁ ++ "--" :: l₂) } := by
    simp only [Parse, if_neg hL0, hfL,
      sgf_cons (fileInputOperations.contains op)
        { Args := op :: (l₁ ++ "--" :: l₂), Namespace := "" } op (l₁ ++ "--" :: l₂) hop]
    exact restLoop_args (fileInputOperations.contains op)
      (skipSubcommand (operationsWithSubcommands op) (l₁ ++ "--" :: l₂)).length
      (skipSubcommand (operationsWithSubcommands op) (l₁ ++ "--" :: l₂))
      ({ Operation := op } : KubectlCommand) (op :: (l₁ ++ "--" :: l₂)) (Nat.le_refl _)
  have step2 : Parse (op :: (l₁ ++ ["--"]))
      = { restLoop (fileInputOperations.contains op) ({ Operation := op } : KubectlCommand)
            (skipSubcommand (operationsWithSubcommands op) (l₁ ++ ["--"]))
          with Args := op :: (l₁ ++ ["--"]) } := by
    simp only [Parse, if_neg hR0, hfR,
      sgf_cons (fileInputOperations.contains op)
        { Args := op :: (l₁ ++ ["--"]), Namespace := "" } op (l₁ ++ ["--"]) hop]
    exact restLoop_args (fileInputOperations.contains op)
      (skipSubcommand (operationsWithSubcommands op) (l₁ ++ ["--"])).length
      (skipSubcommand (operationsWithSubcommands op) (l₁ ++ ["--"]))
      ({ Operation := op } : KubectlCommand) (op :: (l₁ ++ ["--"])) (Nat.le_refl _)
  rw [step1, step2, e3]

/-- Witness for the amended C6 at the spec's example
`exec nginx -- /bin/sh -c ls`. -/
theorem parse_double_dash_witness :
    hasPre "exec" "-" = false ∧
    "--" ∉ ["nginx"] ∧
    (∀ t, (["nginx"] : List String).getLast? = some t → consumesNext t = false) ∧
    Parse ["exec", "nginx", "--", "/bin/sh", "-c", "ls"]
      = { Parse ["exec", "nginx", "--"] with
          Args := ["exec", "nginx", "--", "/bin/sh", "-c", "ls"] } ∧
    (Parse ["exec", "nginx", "--", "/bin/sh", "-c", "ls"]).Resource = "nginx" ∧
    (Parse ["exec", "nginx", "--", "/bin/sh", "-c", "ls"]).Name = "" := by
  refine ⟨by decide, by decide, by decide, ?_, by decide, by decide⟩
  exact parse_double_dash "exec" ["nginx"] ["/bin/sh", "-c", "ls"]
    (by decide) (by decide) (by decide)

example : Parse ["delete", "pod", "nginx"] =
    { Operation := "delete", Resource := "pod", Name := "nginx",
      Args := ["delete", "pod", "nginx"] } := by decide

example : Parse ["delete", "pod/nginx"] =
    { Operation := "delete", Resource := "pod", Name := "nginx",
      Args := ["delete", "pod/nginx"] } := by decide

example : (Parse ["logs", "nginx-pod", "-f", "--tail", "100"]).FileInputs = [] := by decide

example : (Parse ["apply", "-f", "deploy.yaml"]).FileInputs = ["deploy.yaml"] := by decide

example : (Parse ["exec", "nginx", "--", "/bin/sh", "-c", "ls"]).Resource = "nginx" ∧
    (Parse ["exec", "nginx", "--", "/bin/sh", "-c", "ls"]).Name = "" := by decide

example : (Parse ["delete", "pod", "nginx", "--dry-run=client"]).DryRun = true := by decide

example : (Parse ["rollout", "restart", "deployment/nginx"]).Resource = "deployment" := by decide

example : (Parse ["delete", "/nginx"]).Name = "nginx" ∧
    (Parse ["delete", "/nginx"]).Resource = "" := by decide

example : (Parse ["--", "delete", "pod", "nginx"]).Resource = "pod" := by decide

example : (Parse ["delete", "pods", "-A"]).AllNamespaces = true := by decide

example : (Parse ["cordon", "node-1", "-n", "kube-system"]).Namespace = "kube-system" := by decide

example :
    (Check defaultConfig (Parse ["delete", "pod", "nginx", "--dry-run=client"]) "dev").IsDangerous
      = false := by decide

example :
    (Check { Mode := modeWarnOnly, DangerousOperations := ["cordon"],
             ProtectedNamespaces := ["kube-system"], ProtectedClusters := [] }
      (Parse ["cordon", "node-1", "-n", "kube-system"]) "dev-cluster").RequiresConfirmation
      = true := by decide

example :
    (CheckResources defaultConfig "apply"
      [{ Kind := "Deployment", Name := "nginx", Namespace := "kube-system", Source := "deploy.yaml" }]
      "test-cluster" ["kube-system"]).IsDangerous = true := by decide

example :
    protectedNamespaceSet
      { Mode := modeConfirm, DangerousOperations := ["apply"],
        ProtectedNamespaces := ["a", "b"], ProtectedClusters := [] }
      [{ Kind := "D", Name := "x", Namespace := "a", Source := "s" },
       { Kind := "D", Name := "y", Namespace := "a", Source := "s" },
       { Kind := "D", Name := "z", Namespace := "b", Source := "s" }] = ["a", "b"] := by decide

end Safekubectl
